import Mathlib

/-!
Verification of the change-review decision pipeline of the
`agentic-code-reviewer` repository: a shallow embedding of the scoring
engine (`src/scoring/engine.py`), the run-graph routing
(`src/agent/graph.py` and the patch nodes), the patch validator
(`src/sandbox/executor.py`) and the diff hunk normalizer
(`src/agent/tools/diff_generator.py`), together with theorems about the
spec's testable properties.

Numeric model: Python floats are modelled as rationals (`ℚ`).  All values
reachable in the claims are exact in both representations.  Python
`round(x, n)` is banker's rounding; we use Mathlib's `round`, which agrees
with it except exactly at .5 ties, and no reachable value in the proofs
lies on a tie.
-/

namespace AgenticReviewer

/-! ## Data model (src/agent/state.py) -/

inductive Decision where
  | AUTO_APPROVE
  | NEEDS_REVIEW
  | REJECT
deriving DecidableEq, Repr

/-- One finding of a check (`CheckDetail` in src/agent/state.py).
Only `severity` is consulted by the scoring engine. -/
structure CheckDetail where
  file_path : String
  line : Int
  column : Int
  severity : String
  message : String
  rule_id : String
deriving DecidableEq, Repr

/-- `CheckResult` in src/agent/state.py (fields consulted by the engine;
`check_name`, `output`, `duration_ms` and `timestamp` carry no decision
content and are omitted). -/
structure CheckResult where
  passed : Bool
  error_count : Nat
  warning_count : Nat
  details : List CheckDetail
  has_critical_failure : Bool := false
deriving DecidableEq, Repr

/-- `Scores` in src/agent/state.py. -/
structure Scores where
  quality_score : ℚ
  risk_score : ℚ
  test_score : ℚ
  lint_score : ℚ
  typecheck_score : ℚ
  security_score : ℚ
  has_hard_gate_failure : Bool
deriving DecidableEq, Repr

/-- The check-result map `dict[str, CheckResult]`: an association list with
first-key-wins lookup (a Python dict has unique keys, so lookup of the
first matching key models dict indexing). -/
abbrev CheckMap := List (String × CheckResult)

/-! ## Configuration (src/config.py) -/

def max_files_per_run : Nat := 10

def max_diff_lines : Nat := 500

def sensitive_paths : List String :=
  ["auth/", "security/", "payment/", "config/", "settings/", "secrets/", "credentials/"]

/-! ## Scoring engine (src/scoring/engine.py) -/

structure ScoringWeights where
  tests : ℚ := 0.40
  lint : ℚ := 0.15
  format : ℚ := 0.05
  typecheck : ℚ := 0.25
  security : ℚ := 0.15
deriving DecidableEq, Repr

structure ScoringThresholds where
  quality_approve : ℚ := 80.0
  quality_review : ℚ := 60.0
  risk_review : ℚ := 0.3
  risk_reject : ℚ := 0.7
deriving DecidableEq, Repr

structure ScoringResult where
  quality_score : ℚ
  risk_score : ℚ
  decision : Decision
  scores : Scores
  gate_failures : List String
  risk_flags : List String
deriving DecidableEq, Repr

/-- Python `round(x, 2)` (exact on all values reachable here). -/
def round2 (x : ℚ) : ℚ := (round (x * 100) : ℤ) / 100

/-- Python `round(x, 3)` (exact on all values reachable here). -/
def round3 (x : ℚ) : ℚ := (round (x * 1000) : ℤ) / 1000

/-- `ScoringEngine._compute_check_scores` (engine.py lines 73-123). -/
def computeCheckScores (check_results : CheckMap) : Scores :=
  let test0 : ℚ × Bool :=
    match check_results.lookup "tests" with
    | some result => if ¬ result.passed then (0.0, true) else (100.0, false)
    | none => (100.0, false)
  let test_score := test0.1
  let gate1 := test0.2
  let lint_score : ℚ :=
    match check_results.lookup "lint" with
    | some result =>
        let error_penalty : ℚ := min (result.error_count * 5 : ℕ) 50
        let warning_penalty : ℚ := min (result.warning_count * 2 : ℕ) 20
        max (100 - error_penalty - warning_penalty) 0
    | none => 100.0
  let lint_score : ℚ :=
    match check_results.lookup "format" with
    | some result => if ¬ result.passed then max (lint_score - 10) 0 else lint_score
    | none => lint_score
  let typecheck_score : ℚ :=
    match check_results.lookup "typecheck" with
    | some result =>
        let error_penalty : ℚ := min (result.error_count * 10 : ℕ) 60
        let warning_penalty : ℚ := min (result.warning_count * 2 : ℕ) 20
        max (100 - error_penalty - warning_penalty) 0
    | none => 100.0
  let sec0 : ℚ × Bool :=
    match check_results.lookup "security" with
    | some result =>
        let critical_penalty : ℚ := result.error_count * 40
        let high_penalty : ℚ :=
          20 * ((result.details.filter (fun d => d.severity = "error")).length : ℚ)
        let medium_penalty : ℚ := result.warning_count * 5
        (max (100 - critical_penalty - high_penalty - medium_penalty) 0,
          if result.has_critical_failure then true else gate1)
    | none => (100.0, gate1)
  { quality_score := 0.0
    risk_score := 0.0
    test_score := test_score
    lint_score := lint_score
    typecheck_score := typecheck_score
    security_score := sec0.1
    has_hard_gate_failure := sec0.2 }

/-- `ScoringEngine._compute_quality_score` (engine.py lines 125-132). -/
def computeQualityScore (w : ScoringWeights) (scores : Scores) : ℚ :=
  round2 (scores.test_score * w.tests
    + scores.lint_score * w.lint
    + scores.typecheck_score * w.typecheck
    + scores.security_score * w.security)

/-- Scanner for `countSubstr`: walks the text one character at a time;
`skip` is the number of positions still covered by the previously matched
occurrence (so matches never overlap). -/
def countSubstrAux (pat : List Char) : List Char → Nat → Nat
  | [], _ => 0
  | c :: t, skip =>
      match skip with
      | Nat.succ k => countSubstrAux pat t k
      | 0 =>
          if pat.isPrefixOf (c :: t) then
            1 + countSubstrAux pat t (pat.length - 1)
          else
            countSubstrAux pat t 0

/-- Python's non-overlapping, left-to-right `str.count(pat)` for a
non-empty pattern, on character lists. -/
def countSubstr (pat : List Char) (s : List Char) : Nat :=
  countSubstrAux pat s 0

/-- Python `pat in s` substring test. -/
def containsSub (pat s : String) : Bool := 0 < countSubstr pat.data s.data

/-- Total `\n+`-count plus `\n-`-count used by
`ScoringEngine._compute_diff_size_risk` (engine.py lines 161-164). -/
def engineTotalLines (diff_content : String) : Nat :=
  countSubstr "\n+".data diff_content.data + countSubstr "\n-".data diff_content.data

/-- `ScoringEngine._compute_diff_size_risk` (engine.py lines 160-174);
returns the factor value together with the flags it appends. -/
def computeDiffSizeRisk (diff_content : String) : ℚ × List String :=
  let total_lines := engineTotalLines diff_content
  if total_lines > 500 then
    (1.0, ["Large diff: " ++ toString total_lines ++ " lines changed"])
  else if total_lines > 200 then
    (0.6, ["Moderate diff: " ++ toString total_lines ++ " lines changed"])
  else if total_lines > 100 then
    (0.3, [])
  else
    (0.0, [])

/-- `ScoringEngine._compute_sensitive_path_risk` (engine.py lines 176-189). -/
def computeSensitivePathRisk (affected_files : List String) : ℚ × List String :=
  let step :=
    affected_files.foldl (fun acc file_path =>
      sensitive_paths.foldl (fun acc2 sensitive_path =>
        if containsSub (String.mk ((sensitive_path.data.reverse.dropWhile (· = '/')).reverse)) file_path then
          (max acc2.1 0.8, acc2.2 ++ ["Sensitive file modified: " ++ file_path])
        else acc2) acc) ((0.0 : ℚ), ([] : List String))
  let joined := String.intercalate " " affected_files
  if ["auth", "security", "payment", "secret", "credential"].any
      (fun kw => containsSub kw joined) then
    (max step.1 0.9, step.2 ++ ["Sensitive keywords in file paths"])
  else step

/-- `ScoringEngine._compute_test_coverage_risk` (engine.py lines 191-204). -/
def computeTestCoverageRisk (affected_files : List String) : ℚ × List String :=
  let code_files := affected_files.filter
    (fun f => f.endsWith ".py" ∧ ¬ f.startsWith "tests/")
  let test_files := affected_files.filter (fun f => f.startsWith "tests/")
  if code_files = [] then (0.0, [])
  else if test_files = [] ∧ code_files.length > 0 then
    (0.5, ["Code changes without test updates"])
  else (0.0, [])

/-- Keyword-occurrence total used by
`ScoringEngine._compute_complexity_risk` (engine.py lines 206-208). -/
def engineComplexityCount (diff_content : String) : Nat :=
  (["if ", "elif ", "for ", "while ", "try:", "except ", "with "].map
    (fun kw => countSubstr kw.data diff_content.data)).sum

/-- `ScoringEngine._compute_complexity_risk` (engine.py lines 206-215). -/
def computeComplexityRisk (diff_content : String) : ℚ × List String :=
  let complexity_count := engineComplexityCount diff_content
  if complexity_count > 20 then
    (0.8, ["High complexity change: " ++ toString complexity_count ++ " control structures"])
  else if complexity_count > 10 then
    (0.4, [])
  else (0.0, [])

/-- `ScoringEngine._compute_dependency_risk` (engine.py lines 217-232):
first (file, dependency-file) substring match wins, mirroring the early
`return` in the nested loop. -/
def computeDependencyRisk (affected_files : List String) : ℚ × List String :=
  let dependency_files := ["requirements.txt", "pyproject.toml", "setup.py", "Pipfile", "poetry.lock"]
  match affected_files.findSome? (fun file_path =>
      dependency_files.findSome? (fun dep_file =>
        if containsSub dep_file file_path then some file_path else none)) with
  | some file_path => (0.7, ["Dependency file modified: " ++ file_path])
  | none => (0.0, [])

/-- `ScoringEngine._compute_new_code_risk` (engine.py lines 234-248). -/
def computeNewCodeRisk (diff_content : String) : ℚ × List String :=
  let lines := diff_content.splitOn "\n"
  let added_lines := lines.filter (fun l => l.startsWith "+" ∧ ¬ l.startsWith "+++")
  let modified_lines := lines.filter (fun l => l.startsWith "-" ∧ ¬ l.startsWith "---")
  let total_changes := added_lines.length + modified_lines.length
  if total_changes = 0 then (0.0, [])
  else
    let new_ratio : ℚ := (added_lines.length : ℚ) / (total_changes : ℚ)
    if new_ratio > 0.8 then (0.5, ["Mostly new code (low refactor ratio)"])
    else (0.0, [])

/-- `ScoringEngine._compute_risk_score` (engine.py lines 134-158); the flag
list accumulates in the helper call order. -/
def computeRiskScore (diff_content : String) (affected_files : List String) :
    ℚ × List String :=
  let ds := computeDiffSizeRisk diff_content
  let sp := computeSensitivePathRisk affected_files
  let tc := computeTestCoverageRisk affected_files
  let cx := computeComplexityRisk diff_content
  let dep := computeDependencyRisk affected_files
  let nc := computeNewCodeRisk diff_content
  let combined := ds.1 * 0.15 + sp.1 * 0.25 + tc.1 * 0.20 + cx.1 * 0.10
    + dep.1 * 0.15 + nc.1 * 0.15
  (round3 combined, ds.2 ++ sp.2 ++ tc.2 ++ cx.2 ++ dep.2 ++ nc.2)

/-- `ScoringEngine._check_hard_gates` (engine.py lines 250-264). -/
def checkHardGates (check_results : CheckMap) (affected_files : Option (List String)) :
    List String :=
  let f1 : List String :=
    match check_results.lookup "tests" with
    | some r => if ¬ r.passed then ["Tests failed"] else []
    | none => []
  let f2 : List String :=
    match check_results.lookup "security" with
    | some r => if r.has_critical_failure then ["Critical security issue detected"] else []
    | none => []
  let f3 : List String :=
    match affected_files with
    | some fs =>
        if fs ≠ [] ∧ fs.length > max_files_per_run then
          ["Too many files affected: " ++ toString fs.length ++ " > "
            ++ toString max_files_per_run]
        else []
    | none => []
  f1 ++ f2 ++ f3

/-- `ScoringEngine._compute_decision` (engine.py lines 266-284). -/
def computeDecision (t : ScoringThresholds) (quality_score risk_score : ℚ)
    (gate_failures : List String) : Decision :=
  if gate_failures ≠ [] then .REJECT
  else if risk_score ≥ t.risk_reject then .REJECT
  else if risk_score ≥ t.risk_review then .NEEDS_REVIEW
  else if quality_score < t.quality_review then .REJECT
  else if quality_score < t.quality_approve then .NEEDS_REVIEW
  else .AUTO_APPROVE

/-- Python truthiness of the optional `diff_content` argument. -/
def truthyStr : Option String → Bool
  | none => false
  | some s => s ≠ ""

/-- Python truthiness of the optional `affected_files` argument. -/
def truthyList : Option (List String) → Bool
  | none => false
  | some l => l ≠ []

/-- `ScoringEngine.compute_scores` (engine.py lines 46-71). -/
def computeScores (w : ScoringWeights) (t : ScoringThresholds)
    (check_results : CheckMap) (diff_content : Option String)
    (affected_files : Option (List String)) : ScoringResult :=
  let scores := computeCheckScores check_results
  let quality_score := computeQualityScore w scores
  let rk : ℚ × List String :=
    if truthyStr diff_content ∧ truthyList affected_files then
      computeRiskScore (diff_content.getD "") (affected_files.getD [])
    else (0.0, [])
  let gate_failures := checkHardGates check_results affected_files
  let decision := computeDecision t quality_score rk.1 gate_failures
  { quality_score := quality_score
    risk_score := rk.1
    decision := decision
    scores := scores
    gate_failures := gate_failures
    risk_flags := rk.2 }

/-! ## Run graph (src/agent/graph.py with the patch nodes of src/agent/nodes)

The nodes call external collaborators (LLM, file system, PatchApplier);
each node model takes those collaborator outcomes as arguments and
performs exactly the state updates of the source. -/

/-- `PatchResult` in src/agent/state.py. -/
structure MPatchResult where
  success : Bool
  sandbox_id : Option String := none
  error : Option String := none
  files_modified : List String := []
deriving DecidableEq, Repr

/-- `PatchValidationResult` in src/sandbox/executor.py. -/
structure PatchValidationResult where
  valid : Bool
  errors : List String
  warnings : List String
  hunks_total : Nat
  hunks_applied : Nat
  files_affected : List String
  lines_added : Nat
  lines_removed : Nat
deriving DecidableEq, Repr

/-- The fields of `AgentState` (src/agent/state.py) read or written by the
run graph's routing and by the patch nodes.  `has_change_plan` models
`change_plan is not None`. -/
structure MAgentState where
  errors : List String := []
  retry_count : Nat := 0
  has_change_plan : Bool := false
  generated_diff : Option String := none
  patch_result : Option MPatchResult := none
  patch_applied : Bool := false
  sandbox_id : Option String := none
deriving DecidableEq, Repr

/-- Target labels of `should_continue` (graph.py lines 19-24). -/
inductive ContinueRoute where
  | cont
  | stop
deriving DecidableEq, Repr

/-- Target labels of `route_after_patch` (graph.py lines 27-32). -/
inductive PatchRoute where
  | run_checks
  | retry
  | stop
deriving DecidableEq, Repr

/-- Graph nodes (graph.py lines 44-52), plus the `END` node. -/
inductive Stage where
  | ingest_repo
  | retrieve_context
  | plan_change
  | generate_patch
  | apply_patch
  | run_checks
  | score_change
  | explain_diff
  | escalate_finalize
  | finished
deriving DecidableEq, Repr

/-- `should_continue` (graph.py lines 19-24). -/
def shouldContinue (s : MAgentState) : ContinueRoute :=
  if s.errors ≠ [] then .stop
  else if s.retry_count > 2 then .stop
  else .cont

/-- `route_after_patch` (graph.py lines 27-32): `state.patch_result` is
truthy exactly when it is not `None`. -/
def routeAfterPatch (s : MAgentState) : PatchRoute :=
  match s.patch_result with
  | some pr =>
      if ¬ pr.success then
        if s.retry_count < 2 then .retry else .stop
      else .run_checks
  | none => .run_checks

/-- The conditional-edge map installed after `apply_patch`
(graph.py lines 72-76). -/
def edgeAfterPatch : PatchRoute → Stage
  | .run_checks => .run_checks
  | .retry => .generate_patch
  | .stop => .escalate_finalize

/-- Python rendering of `result.error` inside the f-string
`f"Failed to apply patch: {result.error}"`. -/
def pyShow : Option String → String
  | none => "None"
  | some s => s

/-- `apply_patch_sandbox` (src/agent/nodes/apply_patch.py), with the
`PatchApplier.validate_diff` and `PatchApplier.apply_patch` outcomes
supplied as arguments.  The guard `if state.errors or not
state.generated_diff:` tests Python truthiness, so `None` and the empty
string both make the node return the state unchanged (`truthyStr`). -/
def applyPatchSandbox (validation : PatchValidationResult)
    (result : MPatchResult) (s : MAgentState) : MAgentState :=
  if s.errors ≠ [] ∨ truthyStr s.generated_diff = false then s
  else if ¬ validation.valid then { s with errors := s.errors ++ validation.errors }
  else
    let s1 := { s with patch_result := some result, patch_applied := result.success }
    if ¬ result.success then
      { s1 with errors := s1.errors ++ ["Failed to apply patch: " ++ pyShow result.error] }
    else
      { s1 with sandbox_id := result.sandbox_id }

/-- `generate_patch` (src/agent/nodes/generate_patch.py), with the error
messages appended inside the per-change loop and the diffs it collected
supplied as arguments (they come from the file system and the LLM). -/
def generatePatchNode (loop_errors : List String) (all_diffs : List String)
    (s : MAgentState) : MAgentState :=
  if s.errors ≠ [] ∨ ¬ s.has_change_plan then s
  else
    let s1 := { s with errors := s.errors ++ loop_errors }
    if all_diffs ≠ [] then
      let total_lines := (all_diffs.map (fun d =>
        countSubstr "\n+".data d.data + countSubstr "\n-".data d.data)).sum
      let s2 := { s1 with generated_diff := some (String.intercalate "\n\n" all_diffs) }
      if total_lines > max_diff_lines then
        { s2 with
            errors := s2.errors ++ ["Generated diff too large: " ++ toString total_lines
              ++ " lines > " ++ toString max_diff_lines]
            generated_diff := none }
      else s2
    else { s1 with errors := s1.errors ++ ["No diffs generated"] }

/-! ## Patch validation and application (src/sandbox/executor.py)

`unidiff.PatchSet` parsing is an external library; the validator is
modelled over the parsed patch set it produces. -/

inductive ULineKind where
  | added
  | removed
  | context
deriving DecidableEq, Repr

/-- One body line of a parsed hunk (`line.is_added` / `line.is_removed`
and `line.value` are what the validator reads). -/
structure ULine where
  kind : ULineKind
  value : String
deriving DecidableEq, Repr

structure UHunk where
  target_start : Nat
  lines : List ULine
deriving DecidableEq, Repr

structure UPatchedFile where
  path : String
  source_file : String
  target_file : String
  hunks : List UHunk
deriving DecidableEq, Repr

abbrev UPatchSet := List UPatchedFile

/-- `PatchApplier.MAX_DIFF_LINES`. -/
def MAX_DIFF_LINES : Nat := 500

/-- `PatchApplier.FORBIDDEN_PATTERNS`. -/
def FORBIDDEN_PATTERNS : List String :=
  ["__pycache__", ".pyc", ".env", "credentials", "secrets", ".git/"]

/-- ASCII model of Python `str.lower()`. -/
def pyLower (s : String) : String := String.map Char.toLower s

/-- Match of the regex `sk-[a-zA-Z0-9]{20,}` starting at this position. -/
def skKeyAt (s : List Char) : Bool :=
  "sk-".data.isPrefixOf s ∧ 20 ≤ ((s.drop 3).takeWhile Char.isAlphanum).length

/-- Match of the regex `AKIA[0-9A-Z]{16}` starting at this position. -/
def akiaKeyAt (s : List Char) : Bool :=
  "AKIA".data.isPrefixOf s
    ∧ 16 ≤ ((s.drop 4).takeWhile (fun c => c.isDigit ∨ c.isUpper)).length

/-- Match of the regex `ghp_[a-zA-Z0-9]{36}` starting at this position. -/
def ghpKeyAt (s : List Char) : Bool :=
  "ghp_".data.isPrefixOf s ∧ 36 ≤ ((s.drop 4).takeWhile Char.isAlphanum).length

/-- Match of the regex `[a-zA-Z0-9]{32,}` starting at this position. -/
def longTokenAt (s : List Char) : Bool :=
  32 ≤ (s.takeWhile Char.isAlphanum).length

/-- Python `re.search`: the pattern matches starting at some position. -/
def searchAt (p : List Char → Bool) : List Char → Bool
  | [] => p []
  | c :: t => p (c :: t) || searchAt p t

/-- `PatchApplier._contains_secret` (executor.py lines 104-136). -/
def containsSecret (line : String) : Bool :=
  let secret_keywords := ["api_key", "apikey", "secret_key", "secretkey", "password",
    "passwd", "token", "bearer", "auth", "credential"]
  let line_lower := pyLower line
  (secret_keywords.any (fun pattern =>
      containsSub pattern line_lower && containsSub "=" line))
    || searchAt skKeyAt line.data
    || searchAt akiaKeyAt line.data
    || searchAt ghpKeyAt line.data
    || searchAt longTokenAt line.data

/-- The `a/`-stripping of `patched_file.path` (executor.py lines 63-65). -/
def stripAPath (p : String) : String := if p.startsWith "a/" then p.drop 2 else p

/-- The errors the per-file loop of `validate_diff` accumulates for one
patched file (executor.py lines 62-80): forbidden-pattern errors in
pattern order, then potential-secret errors in hunk and line order. -/
def fileErrors (pf : UPatchedFile) : List String :=
  let file_path := stripAPath pf.path
  (FORBIDDEN_PATTERNS.filterMap (fun pattern =>
    if containsSub pattern file_path then
      some ("Forbidden path pattern: " ++ pattern ++ " in " ++ file_path)
    else none))
  ++ ((pf.hunks.map (fun hunk =>
        hunk.lines.filterMap (fun line =>
          if line.kind = .added ∧ containsSecret line.value then
            some ("Potential secret in added line: " ++ file_path ++ ":"
              ++ toString hunk.target_start)
          else none))).flatten)

/-- Added-line count of a parsed patch set (executor.py lines 72-80). -/
def linesAddedCount (ps : UPatchSet) : Nat :=
  (ps.map (fun pf => (pf.hunks.map (fun h =>
    (h.lines.filter (fun l => l.kind = .added)).length)).sum)).sum

/-- Removed-line count of a parsed patch set (executor.py lines 72-80). -/
def linesRemovedCount (ps : UPatchSet) : Nat :=
  (ps.map (fun pf => (pf.hunks.map (fun h =>
    (h.lines.filter (fun l => l.kind = .removed)).length)).sum)).sum

/-- `PatchApplier.validate_diff` (executor.py lines 39-102) on a parsed
patch set (the `unidiff.PatchSet` parse-failure branch returns the fixed
all-zero invalid report and is outside this model). -/
def validateDiff (ps : UPatchSet) : PatchValidationResult :=
  let files_affected := ps.map (fun pf => stripAPath pf.path)
  let hunks_total := (ps.map (fun pf => pf.hunks.length)).sum
  let lines_added := linesAddedCount ps
  let lines_removed := linesRemovedCount ps
  let perFile := (ps.map fileErrors).flatten
  let total_lines := lines_added + lines_removed
  let sizeErrors : List String :=
    if total_lines > MAX_DIFF_LINES then
      ["Diff too large: " ++ toString total_lines ++ " lines (max "
        ++ toString MAX_DIFF_LINES ++ ")"]
    else []
  let warnings : List String :=
    if files_affected.length > 10 then
      ["Many files affected: " ++ toString files_affected.length]
    else []
  let deletionErrors := ps.filterMap (fun pf =>
    if pf.target_file = "/dev/null" then
      some ("File deletion not allowed: " ++ pf.source_file)
    else none)
  let errors := perFile ++ sizeErrors ++ deletionErrors
  { valid := errors.isEmpty
    errors := errors
    warnings := warnings
    hunks_total := hunks_total
    hunks_applied := 0
    files_affected := files_affected
    lines_added := lines_added
    lines_removed := lines_removed }

/-- A parsed one-file patch with a single hunk of 501 added lines,
used as a concrete oversized input. -/
def bigPatchSet : UPatchSet :=
  [{ path := "a/f.py"
     source_file := "a/f.py"
     target_file := "b/f.py"
     hunks := [{ target_start := 1
                 lines := List.replicate 501 { kind := ULineKind.added, value := "x" } }] }]

/-- `PatchApplier.apply_patch` (executor.py lines 138-156): re-validate,
short-circuit on invalid, otherwise run the selected backend
(`_apply_in_sandbox` or `_apply_local`), whose outcome is the `backend`
argument. -/
def applyPatch (ps : UPatchSet) (backend : MPatchResult) : MPatchResult :=
  let validation := validateDiff ps
  if ¬ validation.valid then
    { success := false
      error := some (String.intercalate "; " validation.errors)
      files_modified := [] }
  else backend

/-! ## Diff hunk normalizer (src/agent/tools/diff_generator.py)

A line is a `List Char`: one piece of Python's `diff.split("\n")`, so it
contains no newline. -/

abbrev Line := List Char

/-- Whitespace removed by Python `str.rstrip()` (ASCII model). -/
def isPyWS (c : Char) : Bool :=
  c = ' ' || c = '\t' || c = '\n' || c = '\r' || c = '\x0b' || c = '\x0c'

/-- Python `str.rstrip()`. -/
def rstrip (l : Line) : Line := (l.reverse.dropWhile isPyWS).reverse

/-- Python `line.startswith(p)`. -/
def pfx (p : String) (l : Line) : Bool := p.data.isPrefixOf l

/-- Stop condition of the hunk-collecting `while` loop
(diff_generator.py line 115). -/
def isStop (l : Line) : Bool := pfx "@@" l || pfx "---" l || pfx "diff --git" l

def notStop (l : Line) : Bool := !(isStop l)

/-- Per-line step of `DiffGenerator._clean_hunk` (lines 149-163); `none`
models the `continue` that drops a `+`/`-` line whose content is nonempty
but becomes empty when its trailing whitespace is stripped. -/
def cleanLine (l : Line) : Option Line :=
  if (pfx "+" l || pfx "-" l) && !(pfx "+++" l || pfx "---" l) then
    match l with
    | [] => some []   -- unreachable: a line starting with '+' or '-' is nonempty
    | c :: content =>
        let stripped := rstrip content
        if stripped = [] ∧ content ≠ [] then none
        else some (c :: stripped)
  else if l = [] ∨ l = [' '] then some []
  else some (rstrip l)

/-- `DiffGenerator._clean_hunk` (lines 149-163). -/
def cleanHunk (hunk_lines : List Line) : List Line := hunk_lines.filterMap cleanLine

/-- Removed-line count of a hunk body (diff_generator.py line 121). -/
def removedCount (cleaned : List Line) : Nat :=
  (cleaned.filter (fun l => pfx "-" l && !(pfx "---" l))).length

/-- Added-line count of a hunk body (diff_generator.py line 122). -/
def addedCount (cleaned : List Line) : Nat :=
  (cleaned.filter (fun l => pfx "+" l && !(pfx "+++" l))).length

/-- Context-line count of a hunk body (diff_generator.py line 123). -/
def contextCount (cleaned : List Line) : Nat :=
  (cleaned.filter (fun l => !(pfx "+" l) && !(pfx "-" l))).length

/-- Decimal digit character. -/
def digitChar : Nat → Char
  | 0 => '0'
  | 1 => '1'
  | 2 => '2'
  | 3 => '3'
  | 4 => '4'
  | 5 => '5'
  | 6 => '6'
  | 7 => '7'
  | 8 => '8'
  | _ => '9'

/-- Fuel-driven digit expansion; `toDecimal` always supplies enough fuel. -/
def toDecimalAux : Nat → Nat → List Char
  | 0, _ => []
  | fuel + 1, n =>
      if n < 10 then [digitChar n]
      else toDecimalAux fuel (n / 10) ++ [digitChar (n % 10)]

/-- The decimal digits of Python `str(n)` for a natural `n`. -/
def toDecimal (n : Nat) : List Char := toDecimalAux (n + 1) n

/-- Numeric value of a decimal digit character. -/
def charVal (c : Char) : Nat := c.toNat - 48

/-- Python `int` on a digit string. -/
def valOfDigits (ds : List Char) : Nat := ds.foldl (fun a c => 10 * a + charVal c) 0

/-- Parse a maximal nonempty digit run (regex `\d+`). -/
def parseDigits (s : Line) : Option (Nat × Line) :=
  let ds := s.takeWhile Char.isDigit
  if ds = [] then none else some (valOfDigits ds, s.dropWhile Char.isDigit)

/-- Consume the optional `,\d+` group (regex `(?:,\d+)?`); greedy without
backtracking, which agrees with the regex because a maximal digit run is
never followed by a digit and a leftover comma can never match the
mandatory following space. -/
def skipCountPart (s : Line) : Line :=
  match s with
  | ',' :: rest => if rest.takeWhile Char.isDigit = [] then s else rest.dropWhile Char.isDigit
  | _ => s

/-- Drop an exact expected prefix, or fail. -/
def dropExact (p : String) (s : Line) : Option Line :=
  if p.data.isPrefixOf s then some (s.drop p.data.length) else none

/-- The prefix match `re.match(r"@@ -(\d+)(?:,\d+)? \+(\d+)(?:,\d+)? @@", line)`
of diff_generator.py line 125, returning `int(group(1))`, `int(group(2))`:
literal `@@ -`, a digit run, the optional `,digits` group, literal ` +`, a
digit run, the optional group again, then literal ` @@` (anything may
follow, as `re.match` anchors only the start). -/
def parseHeader (l : Line) : Option (Nat × Nat) :=
  match dropExact "@@ -" l with
  | none => none
  | some s1 =>
      match parseDigits s1 with
      | none => none
      | some (old_start, s2) =>
          match dropExact " +" (skipCountPart s2) with
          | none => none
          | some s4 =>
              match parseDigits s4 with
              | none => none
              | some (new_start, s5) =>
                  if " @@".data.isPrefixOf (skipCountPart s5) then
                    some (old_start, new_start)
                  else none

/-- Full parse of the exact header shape the normalizer emits,
`@@ -a,b +c,d @@` with nothing following; used to read the counts back
out of an output line. -/
def parseHeader4 (l : Line) : Option (Nat × Nat × Nat × Nat) :=
  match dropExact "@@ -" l with
  | none => none
  | some s1 =>
      match parseDigits s1 with
      | none => none
      | some (a, s2) =>
          match dropExact "," s2 with
          | none => none
          | some s3 =>
              match parseDigits s3 with
              | none => none
              | some (b, s4) =>
                  match dropExact " +" s4 with
                  | none => none
                  | some s5 =>
                      match parseDigits s5 with
                      | none => none
                      | some (c, s6) =>
                          match dropExact "," s6 with
                          | none => none
                          | some s7 =>
                              match parseDigits s7 with
                              | none => none
                              | some (d, s8) =>
                                  if s8 = " @@".data then some (a, b, c, d) else none

/-- The f-string `f"@@ -{old_start},{old_count} +{new_start},{new_count} @@"`
(diff_generator.py line 139). -/
def mkHeader (old_start old_count new_start new_count : Nat) : Line :=
  "@@ -".data ++ toDecimal old_start ++ [','] ++ toDecimal old_count
    ++ " +".data ++ toDecimal new_start ++ [','] ++ toDecimal new_count
    ++ " @@".data

/-- Header recomputation of `_normalize_hunk_headers` (lines 121-141):
counts come from the cleaned body, a zero count is clamped to
`(start 1, count 1)`, and an unparseable header line is kept unchanged. -/
def recomputeHeader (l : Line) (cleaned : List Line) : Line :=
  match parseHeader l with
  | none => l
  | some (os, ns) =>
      let old_count := removedCount cleaned + contextCount cleaned
      let new_count := addedCount cleaned + contextCount cleaned
      let op : Nat × Nat := if old_count = 0 then (1, 1) else (os, old_count)
      let np : Nat × Nat := if new_count = 0 then (1, 1) else (ns, new_count)
      mkHeader op.1 op.2 np.1 np.2

/-- `DiffGenerator._normalize_hunk_headers` (lines 104-147) on the line
list of `diff.split("\n")`; the body-collecting `while` loop is
`takeWhile`/`dropWhile` over the stop condition. -/
def normLines : List Line → List Line
  | [] => []
  | l :: ls =>
      if pfx "@@" l then
        let cleaned := cleanHunk (ls.takeWhile notStop)
        recomputeHeader l cleaned :: (cleaned ++ normLines (ls.dropWhile notStop))
      else
        l :: normLines ls
termination_by ls => ls.length
decreasing_by
  · exact Nat.lt_succ_of_le (List.dropWhile_suffix notStop).length_le
  · exact Nat.lt_succ_self _

/-- Python `s.split("\n")` on character lists (always nonempty). -/
def splitNl : List Char → List Line
  | [] => [[]]
  | c :: t =>
      match splitNl t with
      | [] => [[c]]   -- unreachable: splitNl never returns []
      | h :: hs => if c = '\n' then [] :: h :: hs else (c :: h) :: hs

/-- Python `"\n".join(lines)` on character lists. -/
def joinNl (ls : List Line) : List Char := List.intercalate ['\n'] ls

/-- `DiffGenerator._normalize_hunk_headers` as the source's `str → str`
function. -/
def normalizeHunkHeaders (diff : String) : String :=
  String.mk (joinNl (normLines (splitNl diff.data)))

/-- The (header line, hunk body) pairs obtained by segmenting a line list
the way the normalizer does; applied to the normalizer's OUTPUT it reads
back each emitted header together with its emitted body. -/
def hunkPairs : List Line → List (Line × List Line)
  | [] => []
  | l :: ls =>
      if pfx "@@" l then
        (l, ls.takeWhile notStop) :: hunkPairs (ls.dropWhile notStop)
      else
        hunkPairs ls
termination_by ls => ls.length
decreasing_by
  · exact Nat.lt_succ_of_le (List.dropWhile_suffix notStop).length_le
  · exact Nat.lt_succ_self _

/-! ## Theorems: scoring engine claims -/

set_option maxRecDepth 16000

/-- C1: for every check-result map, quality score and risk score, a
non-empty hard-gate failure list forces decision REJECT independently of
the quality and risk values; in particular a `tests` entry with
`passed = False` always yields a `"Tests failed"` gate entry and decision
REJECT. -/
theorem C1_gates_force_reject :
    (∀ (t : ScoringThresholds) (quality risk : ℚ) (m : CheckMap)
        (fs : Option (List String)),
        checkHardGates m fs ≠ [] →
        computeDecision t quality risk (checkHardGates m fs) = .REJECT)
    ∧ (∀ (w : ScoringWeights) (t : ScoringThresholds) (m : CheckMap)
        (diff : Option String) (fs : Option (List String)) (cr : CheckResult),
        m.lookup "tests" = some cr → cr.passed = false →
        "Tests failed" ∈ (computeScores w t m diff fs).gate_failures
          ∧ (computeScores w t m diff fs).decision = .REJECT) := by
  constructor
  · intro t quality risk m fs hne
    simp [computeDecision, hne]
  · intro w t m diff fs cr hlook hpass
    have hmem : "Tests failed" ∈ checkHardGates m fs := by
      simp [checkHardGates, hlook, hpass]
    have hne : checkHardGates m fs ≠ [] := by
      intro h
      rw [h] at hmem
      exact absurd hmem (List.not_mem_nil _)
    constructor
    · simpa [computeScores] using hmem
    · simp [computeScores, computeDecision, hne]

/-- Witness for C1 at a concrete failing-tests map. -/
theorem C1_gates_force_reject_witness :
    "Tests failed" ∈ (computeScores {} {}
        [("tests", { passed := false, error_count := 1, warning_count := 0, details := [] })]
        none none).gate_failures
    ∧ (computeScores {} {}
        [("tests", { passed := false, error_count := 1, warning_count := 0, details := [] })]
        none none).decision = .REJECT :=
  C1_gates_force_reject.2 {} {}
    [("tests", { passed := false, error_count := 1, warning_count := 0, details := [] })]
    none none _ (by rfl) (by rfl)

/-- C3: with default thresholds and no gate failures the decision rules
apply in the fixed order risk-reject (0.7), risk-review (0.3),
quality-reject (60), quality-review (80), approve, first match winning,
with the four boundary scenarios of the spec. -/
theorem C3_decision_rule_order :
    computeDecision {} 80 0 [] = .AUTO_APPROVE
    ∧ computeDecision {} 79.9 0 [] = .NEEDS_REVIEW
    ∧ computeDecision {} 100 0.7 [] = .REJECT
    ∧ computeDecision {} 100 0.2999 [] = .AUTO_APPROVE
    ∧ (∀ q r : ℚ, 0.7 ≤ r → computeDecision {} q r [] = .REJECT)
    ∧ (∀ q r : ℚ, 0.3 ≤ r → r < 0.7 → computeDecision {} q r [] = .NEEDS_REVIEW)
    ∧ (∀ q r : ℚ, r < 0.3 → q < 60 → computeDecision {} q r [] = .REJECT)
    ∧ (∀ q r : ℚ, r < 0.3 → 60 ≤ q → q < 80 → computeDecision {} q r [] = .NEEDS_REVIEW)
    ∧ (∀ q r : ℚ, r < 0.3 → 80 ≤ q → computeDecision {} q r [] = .AUTO_APPROVE) := by
  refine ⟨by norm_num [computeDecision], by norm_num [computeDecision],
    by norm_num [computeDecision], by norm_num [computeDecision], ?_, ?_, ?_, ?_, ?_⟩ <;>
    intro q r <;> intros <;>
    simp only [computeDecision, ne_eq, not_true_eq_false, if_false] <;>
    split_ifs <;> first | rfl | (exfalso; norm_num at *; linarith)

/-- Witness for C3 at concrete scores in each rule band. -/
theorem C3_decision_rule_order_witness :
    computeDecision {} 100 0.75 [] = .REJECT
    ∧ computeDecision {} 100 0.5 [] = .NEEDS_REVIEW
    ∧ computeDecision {} 59 0.1 [] = .REJECT
    ∧ computeDecision {} 70 0.1 [] = .NEEDS_REVIEW
    ∧ computeDecision {} 90 0.1 [] = .AUTO_APPROVE :=
  ⟨C3_decision_rule_order.2.2.2.2.1 100 0.75 (by norm_num),
   C3_decision_rule_order.2.2.2.2.2.1 100 0.5 (by norm_num) (by norm_num),
   C3_decision_rule_order.2.2.2.2.2.2.1 59 0.1 (by norm_num) (by norm_num),
   C3_decision_rule_order.2.2.2.2.2.2.2.1 70 0.1 (by norm_num) (by norm_num) (by norm_num),
   C3_decision_rule_order.2.2.2.2.2.2.2.2 90 0.1 (by norm_num) (by norm_num)⟩

/-- C4: on the empty check-result map with no diff and no affected files,
every absent category contributes a full sub-score of 100 and the risk is
0 with decision AUTO_APPROVE, but the quality score the code computes is
95.0 rather than the claimed 100, because the weights used in
`_compute_quality_score` (.40 + .15 + .25 + .15) sum to 0.95. -/
theorem C4_empty_inputs_quality_95 :
    (computeScores {} {} [] none none).scores.test_score = 100
    ∧ (computeScores {} {} [] none none).scores.lint_score = 100
    ∧ (computeScores {} {} [] none none).scores.typecheck_score = 100
    ∧ (computeScores {} {} [] none none).scores.security_score = 100
    ∧ (computeScores {} {} [] none none).risk_score = 0
    ∧ (computeScores {} {} [] none none).decision = .AUTO_APPROVE
    ∧ (computeScores {} {} [] none none).quality_score = 95
    ∧ (computeScores {} {} [] none none).quality_score ≠ 100 := by
  refine ⟨by norm_num [computeScores, computeCheckScores],
    by norm_num [computeScores, computeCheckScores],
    by norm_num [computeScores, computeCheckScores],
    by norm_num [computeScores, computeCheckScores],
    by norm_num [computeScores, computeCheckScores, truthyStr], ?_, ?_, ?_⟩
  · norm_num [computeScores, computeCheckScores, computeQualityScore, round2, checkHardGates,
      computeDecision, truthyStr, round_eq]
  · norm_num [computeScores, computeCheckScores, computeQualityScore, round2, round_eq]
  · norm_num [computeScores, computeCheckScores, computeQualityScore, round2, round_eq]

/-- C10: `compute_scores` skips all six risk factors whenever the diff
content or the affected-file list is `None` or empty; the risk score is
then 0 with no risk flags, and the decision is determined by the gates and
the quality score alone. -/
theorem C10_empty_inputs_skip_risk :
    ∀ (w : ScoringWeights) (t : ScoringThresholds) (m : CheckMap)
      (diff : Option String) (fs : Option (List String)),
      (truthyStr diff = false ∨ truthyList fs = false) →
      (computeScores w t m diff fs).risk_score = 0
      ∧ (computeScores w t m diff fs).risk_flags = []
      ∧ (computeScores w t m diff fs).decision
          = computeDecision t (computeQualityScore w (computeCheckScores m)) 0
              (checkHardGates m fs) := by
  intro w t m diff fs h
  have hcond : ¬ (truthyStr diff = true ∧ truthyList fs = true) := by
    rcases h with h | h <;> simp [h]
  refine ⟨?_, ?_, ?_⟩ <;> simp [computeScores, hcond] <;> norm_num

/-- Witness for C10: an empty diff string is falsy, so risk is skipped even
with a non-empty affected-file list. -/
theorem C10_empty_inputs_skip_risk_witness :
    (truthyStr (some "") = false ∨ truthyList (some ["a.py"]) = false)
    ∧ (computeScores {} {} [] (some "") (some ["a.py"])).risk_score = 0
    ∧ (computeScores {} {} [] (some "") (some ["a.py"])).risk_flags = []
    ∧ (computeScores {} {} [] (some "") (some ["a.py"])).decision
        = computeDecision {} (computeQualityScore {} (computeCheckScores [])) 0
            (checkHardGates [] (some ["a.py"])) := by
  have h : truthyStr (some "") = false ∨ truthyList (some ["a.py"]) = false := by
    left
    rfl
  exact ⟨h, C10_empty_inputs_skip_risk {} {} [] (some "") (some ["a.py"]) h⟩

/-- C8 counterexample: the engine's `_compute_diff_size_risk` returns 0
(not the claimed 0.2) for a diff of 60 changed lines, and its
`_compute_complexity_risk` returns 0 for 8 keyword occurrences (claimed
0.2), 0.8 for 25 occurrences (claimed 0.7) and 0.8 for 35 occurrences
(claimed 1.0); the claimed tiers belong to the standalone `RiskAnalyzer`,
not to the engine the pipeline uses. -/
theorem C8_engine_tier_counterexample :
    engineTotalLines (String.join (List.replicate 60 "\n+x")) = 60
    ∧ (computeDiffSizeRisk (String.join (List.replicate 60 "\n+x"))).1 = 0
    ∧ (computeDiffSizeRisk (String.join (List.replicate 60 "\n+x"))).1 ≠ 0.2
    ∧ engineComplexityCount (String.join (List.replicate 8 "if ")) = 8
    ∧ (computeComplexityRisk (String.join (List.replicate 8 "if "))).1 = 0
    ∧ (computeComplexityRisk (String.join (List.replicate 8 "if "))).1 ≠ 0.2
    ∧ engineComplexityCount (String.join (List.replicate 25 "if ")) = 25
    ∧ (computeComplexityRisk (String.join (List.replicate 25 "if "))).1 = 0.8
    ∧ (computeComplexityRisk (String.join (List.replicate 25 "if "))).1 ≠ 0.7
    ∧ engineComplexityCount (String.join (List.replicate 35 "if ")) = 35
    ∧ (computeComplexityRisk (String.join (List.replicate 35 "if "))).1 ≠ 1.0 := by
  have h60 : engineTotalLines (String.join (List.replicate 60 "\n+x")) = 60 := by
    decide
  have h8 : engineComplexityCount (String.join (List.replicate 8 "if ")) = 8 := by decide
  have h25 : engineComplexityCount (String.join (List.replicate 25 "if ")) = 25 := by decide
  have h35 : engineComplexityCount (String.join (List.replicate 35 "if ")) = 35 := by decide
  refine ⟨h60, ?_, ?_, h8, ?_, ?_, h25, ?_, ?_, h35, ?_⟩ <;>
    simp only [computeDiffSizeRisk, computeComplexityRisk, h60, h8, h25, h35] <;> norm_num

/-- C8 amended: in the pipeline's `ScoringEngine`, the diff-size factor is
0 (there is no 0.2 tier) for totals in (50, 100], and the complexity
factor over the engine's seven control-flow keywords follows the tiers
over 20 → 0.8, over 10 → 0.4, otherwise 0. -/
theorem C8_engine_tiers_amended :
    ∀ diff_content : String,
      (50 < engineTotalLines diff_content → engineTotalLines diff_content ≤ 100 →
        (computeDiffSizeRisk diff_content).1 = 0)
      ∧ (20 < engineComplexityCount diff_content →
        (computeComplexityRisk diff_content).1 = 0.8)
      ∧ (10 < engineComplexityCount diff_content →
          engineComplexityCount diff_content ≤ 20 →
        (computeComplexityRisk diff_content).1 = 0.4)
      ∧ (engineComplexityCount diff_content ≤ 10 →
        (computeComplexityRisk diff_content).1 = 0) := by
  intro d
  refine ⟨?_, ?_, ?_, ?_⟩ <;> intros <;>
    simp only [computeDiffSizeRisk, computeComplexityRisk] <;>
    split_ifs <;> first | (exfalso; omega) | norm_num

/-- Witness for the amended C8 at concrete diffs in each tier. -/
theorem C8_engine_tiers_amended_witness :
    (computeDiffSizeRisk (String.join (List.replicate 60 "\n+x"))).1 = 0
    ∧ (computeComplexityRisk (String.join (List.replicate 25 "if "))).1 = 0.8
    ∧ (computeComplexityRisk (String.join (List.replicate 15 "if "))).1 = 0.4
    ∧ (computeComplexityRisk (String.join (List.replicate 8 "if "))).1 = 0 :=
  ⟨(C8_engine_tiers_amended (String.join (List.replicate 60 "\n+x"))).1
      (by decide) (by decide),
   (C8_engine_tiers_amended (String.join (List.replicate 25 "if "))).2.1 (by decide),
   (C8_engine_tiers_amended (String.join (List.replicate 15 "if "))).2.2.1
      (by decide) (by decide),
   (C8_engine_tiers_amended (String.join (List.replicate 8 "if "))).2.2.2 (by decide)⟩

/-! ## Theorems: run-graph claims -/

/-- C2: the claim says a failed patch outcome with `retry_count` below the
budget increments `retry_count` and returns to patch generation; the code
does route back to `generate_patch`, but no node ever writes
`retry_count`, so it is not incremented (the run still terminates, only
because the failure is also appended to `errors`, which makes the next
`generate_patch` a no-op and `should_continue` route to finalization). -/
theorem C2_retry_counter_never_incremented :
    ∀ (s : MAgentState) (validation : PatchValidationResult) (result : MPatchResult),
      s.errors = [] → truthyStr s.generated_diff = true → validation.valid = true →
      result.success = false → s.retry_count = 0 →
      routeAfterPatch (applyPatchSandbox validation result s) = .retry
      ∧ edgeAfterPatch (routeAfterPatch (applyPatchSandbox validation result s))
          = Stage.generate_patch
      ∧ (applyPatchSandbox validation result s).retry_count = 0
      ∧ (applyPatchSandbox validation result s).errors ≠ []
      ∧ (∀ loop_errors all_diffs,
          generatePatchNode loop_errors all_diffs (applyPatchSandbox validation result s)
            = applyPatchSandbox validation result s)
      ∧ shouldContinue (applyPatchSandbox validation result s) = .stop := by
  intro s validation result herr hdiff hvalid hfail hretry
  refine ⟨?_, ?_, ?_, ?_, ?_, ?_⟩ <;>
    simp [applyPatchSandbox, routeAfterPatch, edgeAfterPatch, generatePatchNode,
      shouldContinue, herr, hdiff, hvalid, hfail, hretry]

/-- Witness for C2 at a concrete failing patch application. -/
theorem C2_retry_counter_never_incremented_witness :
    routeAfterPatch (applyPatchSandbox
        { valid := true, errors := [], warnings := [], hunks_total := 1, hunks_applied := 0,
          files_affected := ["f.py"], lines_added := 1, lines_removed := 0 }
        { success := false, error := some "hunk failed" }
        { errors := [], retry_count := 0, has_change_plan := true,
          generated_diff := some "@@ -1,1 +1,1 @@" }) = .retry
    ∧ (applyPatchSandbox
        { valid := true, errors := [], warnings := [], hunks_total := 1, hunks_applied := 0,
          files_affected := ["f.py"], lines_added := 1, lines_removed := 0 }
        { success := false, error := some "hunk failed" }
        { errors := [], retry_count := 0, has_change_plan := true,
          generated_diff := some "@@ -1,1 +1,1 @@" }).retry_count = 0 :=
  have h := C2_retry_counter_never_incremented
    { errors := [], retry_count := 0, has_change_plan := true,
      generated_diff := some "@@ -1,1 +1,1 @@" }
    { valid := true, errors := [], warnings := [], hunks_total := 1, hunks_applied := 0,
      files_affected := ["f.py"], lines_added := 1, lines_removed := 0 }
    { success := false, error := some "hunk failed" }
    rfl (by decide) rfl rfl rfl
  ⟨h.1, h.2.2.1⟩

/-! ## Theorems: patch validation claims -/

/-- C9: a parsed diff whose total added-plus-removed line count exceeds
the maximum (500) always validates as invalid with a diff-too-large error,
and `apply_patch` on it short-circuits to a failure carrying the joined
validation errors, independent of whatever the apply backend would have
returned, so no apply is attempted. -/
theorem C9_oversized_diff_short_circuits :
    ∀ ps : UPatchSet,
      MAX_DIFF_LINES < linesAddedCount ps + linesRemovedCount ps →
      (validateDiff ps).valid = false
      ∧ ("Diff too large: " ++ toString (linesAddedCount ps + linesRemovedCount ps)
          ++ " lines (max " ++ toString MAX_DIFF_LINES ++ ")") ∈ (validateDiff ps).errors
      ∧ ∀ backend : MPatchResult,
          applyPatch ps backend
            = { success := false
                error := some (String.intercalate "; " (validateDiff ps).errors)
                files_modified := [] } := by
  intro ps hbig
  have hmem : ("Diff too large: " ++ toString (linesAddedCount ps + linesRemovedCount ps)
      ++ " lines (max " ++ toString MAX_DIFF_LINES ++ ")") ∈ (validateDiff ps).errors := by
    simp only [validateDiff, if_pos hbig]
    refine List.mem_append.2 (Or.inl (List.mem_append.2 (Or.inr ?_)))
    simp
  have hne : (validateDiff ps).errors ≠ [] := by
    intro h
    rw [h] at hmem
    exact absurd hmem (List.not_mem_nil _)
  have hvalid : (validateDiff ps).valid = false := by
    have hv : (validateDiff ps).valid = (validateDiff ps).errors.isEmpty := by
      simp [validateDiff]
    rw [hv, Bool.eq_false_iff]
    intro hemp
    exact hne (List.isEmpty_iff.1 hemp)
  refine ⟨hvalid, hmem, ?_⟩
  intro backend
  simp [applyPatch, hvalid]

/-- Witness for C9: one file with one hunk of 501 added lines. -/
theorem C9_oversized_diff_short_circuits_witness :
    (validateDiff bigPatchSet).valid = false :=
  (C9_oversized_diff_short_circuits bigPatchSet
    (by simp [MAX_DIFF_LINES, linesAddedCount, linesRemovedCount, bigPatchSet,
      List.filter_replicate])).1

/-! ## Lemmas: diff normalizer basics -/

theorem pfx_mono {p : String} {l1 l2 : Line} (h : l1 <+: l2) (hp : pfx p l1 = true) :
    pfx p l2 = true := by
  rw [pfx, List.isPrefixOf_iff_prefix] at hp ⊢
  exact hp.trans h

theorem rstrip_pref_self (l : Line) : rstrip l <+: l := by
  have h : (l.reverse.dropWhile isPyWS) <:+ l.reverse := List.dropWhile_suffix isPyWS
  have h2 := List.reverse_prefix.2 h
  simpa [rstrip] using h2

theorem dropWhile_self {α : Type} (p : α → Bool) :
    ∀ l : List α, List.dropWhile p (List.dropWhile p l) = List.dropWhile p l := by
  intro l
  induction l with
  | nil => simp
  | cons a t ih =>
      by_cases h : p a = true
      · simpa [List.dropWhile_cons, h] using ih
      · simp [List.dropWhile_cons, h]

theorem rstrip_idem (l : Line) : rstrip (rstrip l) = rstrip l := by
  simp [rstrip, dropWhile_self]

theorem dropWhile_head_false {α : Type} (p : α → Bool) :
    ∀ (l : List α) (c : α) (m : List α), List.dropWhile p l = c :: m → p c = false := by
  intro l
  induction l with
  | nil => intro c m h; simp [List.dropWhile] at h
  | cons a t ih =>
      intro c m h
      by_cases ha : p a = true
      · rw [List.dropWhile_cons_of_pos ha] at h
        exact ih c m h
      · rw [List.dropWhile_cons_of_neg ha] at h
        cases h
        simpa using ha

theorem rstrip_ne_space (l : Line) : rstrip l ≠ [' '] := by
  intro h
  have h2 : l.reverse.dropWhile isPyWS = [' '] := by
    have := congrArg List.reverse h
    simpa [rstrip] using this
  have := dropWhile_head_false isPyWS l.reverse ' ' [] h2
  simp [isPyWS] at this

theorem rstrip_append (a b : Line) :
    rstrip (a ++ b) = if rstrip b = [] then rstrip a else a ++ rstrip b := by
  by_cases hb : b.reverse.dropWhile isPyWS = []
  · have hb' : rstrip b = [] := by simp [rstrip, hb]
    rw [if_pos hb']
    simp [rstrip, List.dropWhile_append, hb, List.isEmpty_iff]
  · have hb' : rstrip b ≠ [] := by
      simp only [rstrip]
      intro h
      exact hb (by simpa using congrArg List.reverse h)
    rw [if_neg hb']
    simp [rstrip, List.dropWhile_append, List.isEmpty_iff, hb]

/-- Inversion of `cleanLine`: the three branches of `_clean_hunk`. -/
theorem cleanLine_inv {l x : Line} (h : cleanLine l = some x) :
    (∃ c content, l = c :: content ∧ (c = '+' ∨ c = '-')
        ∧ (pfx "+++" l || pfx "---" l) = false
        ∧ ¬(rstrip content = [] ∧ content ≠ [])
        ∧ x = c :: rstrip content)
    ∨ ((l = [] ∨ l = [' ']) ∧ x = [])
    ∨ (((pfx "+" l || pfx "-" l) = false ∨ (pfx "+++" l || pfx "---" l) = true)
        ∧ l ≠ [] ∧ l ≠ [' '] ∧ x = rstrip l) := by
  unfold cleanLine at h
  by_cases h1 : ((pfx "+" l || pfx "-" l) && !(pfx "+++" l || pfx "---" l)) = true
  · rw [if_pos h1] at h
    have hand : (pfx "+" l || pfx "-" l) = true ∧ (pfx "+++" l || pfx "---" l) = false := by
      simpa [Bool.and_eq_true, Bool.not_eq_true'] using h1
    have hpm := hand.1
    have hpm3 := hand.2
    cases l with
    | nil => simp [pfx, List.isPrefixOf] at hpm
    | cons c content =>
        dsimp only at h
        left
        refine ⟨c, content, rfl, ?_, hpm3, ?_, ?_⟩
        · have hor : ('+' == c || '-' == c) = true := by
            simpa [pfx, List.isPrefixOf] using hpm
          rw [Bool.or_eq_true] at hor
          rcases hor with h' | h'
          · exact Or.inl (eq_of_beq h').symm
          · exact Or.inr (eq_of_beq h').symm
        · intro hcond
          rw [if_pos hcond] at h
          cases h
        · by_cases hcond : rstrip content = [] ∧ content ≠ []
          · rw [if_pos hcond] at h
            cases h
          · rw [if_neg hcond] at h
            exact (Option.some_inj.1 h).symm
  · rw [if_neg h1] at h
    by_cases h2 : l = [] ∨ l = [' ']
    · rw [if_pos h2] at h
      exact Or.inr (Or.inl ⟨h2, (Option.some_inj.1 h).symm⟩)
    · rw [if_neg h2] at h
      push_neg at h2
      refine Or.inr (Or.inr ⟨?_, h2.1, h2.2, (Option.some_inj.1 h).symm⟩)
      rcases Bool.eq_false_or_eq_true (pfx "+" l || pfx "-" l) with ht | hf
      · right
        rcases Bool.eq_false_or_eq_true (pfx "+++" l || pfx "---" l) with ht3 | hf3
        · exact ht3
        · exact absurd (by simp [ht, hf3]) h1
      · exact Or.inl hf


theorem dropWhile_eq_self_of_all {α : Type} {p : α → Bool} {l : List α}
    (h : ∀ a ∈ l, p a = false) : l.dropWhile p = l := by
  cases l with
  | nil => rfl
  | cons a t => exact List.dropWhile_cons_of_neg (by simp [h a (by simp)])

theorem rstrip_of_no_ws {m : Line} (h : ∀ ch ∈ m, isPyWS ch = false) : rstrip m = m := by
  rw [rstrip, dropWhile_eq_self_of_all (by intro a ha; exact h a (List.mem_reverse.1 ha))]
  exact List.reverse_reverse m

theorem pfx_rstrip_of_pfx {p : String} (hnw : ∀ ch ∈ p.data, isPyWS ch = false)
    {l : Line} (hp : pfx p l = true) : pfx p (rstrip l) = true := by
  rw [pfx, List.isPrefixOf_iff_prefix] at hp
  obtain ⟨t, ht⟩ := hp
  subst ht
  rw [pfx, List.isPrefixOf_iff_prefix, rstrip_append]
  by_cases hrt : rstrip t = []
  · rw [if_pos hrt, rstrip_of_no_ws hnw]
  · rw [if_neg hrt]
    exact List.prefix_append _ _

theorem cons_prefix_cons {c : Char} {l1 l2 : Line} (h : l1 <+: l2) :
    (c :: l1) <+: (c :: l2) := by
  obtain ⟨t, ht⟩ := h
  exact ⟨t, by rw [List.cons_append, ht]⟩

theorem pm3_false_mono {l1 l2 : Line} (h : l1 <+: l2)
    (h3 : (pfx "+++" l2 || pfx "---" l2) = false) :
    (pfx "+++" l1 || pfx "---" l1) = false := by
  rcases Bool.eq_false_or_eq_true (pfx "+++" l1 || pfx "---" l1) with ht | hf
  · exfalso
    rw [Bool.or_eq_true] at ht
    rcases ht with h' | h' <;> rw [pfx_mono h h'] at h3 <;> simp at h3
  · exact hf

/-- Evaluation of `cleanLine` in its added/removed-line branch. -/
theorem cleanLine_eval_pm {c : Char} {content : Line} (hc : c = '+' ∨ c = '-')
    (h3 : (pfx "+++" (c :: content) || pfx "---" (c :: content)) = false) :
    cleanLine (c :: content)
      = if rstrip content = [] ∧ content ≠ [] then none
        else some (c :: rstrip content) := by
  have h1 : ((pfx "+" (c :: content) || pfx "-" (c :: content))
      && !(pfx "+++" (c :: content) || pfx "---" (c :: content))) = true := by
    rcases hc with h | h <;> subst h <;> simp [pfx, List.isPrefixOf, h3] at h3 ⊢ <;> simp [h3]
  unfold cleanLine
  rw [if_pos h1]

/-- Evaluation of `cleanLine` in its fallback branch. -/
theorem cleanLine_eval_other {l : Line}
    (h1 : ((pfx "+" l || pfx "-" l) && !(pfx "+++" l || pfx "---" l)) = false)
    (hne : l ≠ []) (hnsp : l ≠ [' ']) : cleanLine l = some (rstrip l) := by
  unfold cleanLine
  rw [if_neg (by rw [h1]; exact Bool.false_ne_true), if_neg (by simp [hne, hnsp])]

/-- A line `cleanLine` keeps is a fixed point of `cleanLine`. -/
theorem cleanLine_self {l x : Line} (h : cleanLine l = some x) : cleanLine x = some x := by
  rcases cleanLine_inv h with ⟨c, content, rfl, hc, h3, hcond, rfl⟩ | ⟨hl, rfl⟩
    | ⟨hor, hne, hnsp, rfl⟩
  · have hpre : (c :: rstrip content) <+: (c :: content) :=
      cons_prefix_cons (rstrip_pref_self content)
    have h3x := pm3_false_mono hpre h3
    rw [cleanLine_eval_pm hc h3x, rstrip_idem]
    simp
  · rfl
  · by_cases hx : rstrip l = []
    · rw [hx]
      rfl
    · rcases hor with hf | ht3
      · have hf' : (pfx "+" (rstrip l) || pfx "-" (rstrip l)) = false := by
          rcases Bool.eq_false_or_eq_true (pfx "+" (rstrip l) || pfx "-" (rstrip l))
            with ht | hf2
          · exfalso
            rw [Bool.or_eq_true] at ht
            rcases ht with h' | h' <;>
              rw [pfx_mono (rstrip_pref_self l) h'] at hf <;> simp at hf
          · exact hf2
        rw [cleanLine_eval_other (by simp [hf']) hx (rstrip_ne_space l), rstrip_idem]
      · have h3' : (pfx "+++" (rstrip l) || pfx "---" (rstrip l)) = true := by
          rw [Bool.or_eq_true] at ht3 ⊢
          rcases ht3 with h' | h'
          · exact Or.inl (pfx_rstrip_of_pfx (by decide) h')
          · exact Or.inr (pfx_rstrip_of_pfx (by decide) h')
        rw [cleanLine_eval_other (by simp [h3']) hx (rstrip_ne_space l), rstrip_idem]

theorem cleanLine_sublist {l x : Line} (h : cleanLine l = some x) : List.Sublist x l := by
  rcases cleanLine_inv h with ⟨c, content, rfl, _, _, _, rfl⟩ | ⟨_, rfl⟩ | ⟨_, _, _, rfl⟩
  · exact List.Sublist.cons₂ c (rstrip_pref_self content).sublist
  · exact List.nil_sublist _
  · exact (rstrip_pref_self l).sublist

theorem cleanLine_notStop {l x : Line} (hns : notStop l = true) (h : cleanLine l = some x) :
    notStop x = true := by
  rcases cleanLine_inv h with ⟨c, content, rfl, hc, h3, _, rfl⟩ | ⟨_, rfl⟩ | ⟨_, _, _, rfl⟩
  · unfold notStop isStop
    have hat : pfx "@@" (c :: rstrip content) = false := by
      rcases hc with h' | h' <;> subst h' <;> simp [pfx, List.isPrefixOf]
    have hgit : pfx "diff --git" (c :: rstrip content) = false := by
      rcases hc with h' | h' <;> subst h' <;> simp [pfx, List.isPrefixOf]
    have hdash : pfx "---" (c :: rstrip content) = false := by
      have hpre : (c :: rstrip content) <+: (c :: content) :=
        cons_prefix_cons (rstrip_pref_self content)
      rcases Bool.eq_false_or_eq_true (pfx "---" (c :: rstrip content)) with ht | hf
      · exfalso
        rw [pfx_mono hpre ht] at h3
        simp at h3
      · exact hf
    simp [hat, hgit, hdash]
  · rfl
  · unfold notStop isStop at hns ⊢
    rcases Bool.eq_false_or_eq_true (pfx "@@" (rstrip l)) with h1 | h1
    · exfalso
      rw [pfx_mono (rstrip_pref_self l) h1] at hns
      simp at hns
    rcases Bool.eq_false_or_eq_true (pfx "---" (rstrip l)) with h2 | h2
    · exfalso
      rw [pfx_mono (rstrip_pref_self l) h2] at hns
      simp at hns
    rcases Bool.eq_false_or_eq_true (pfx "diff --git" (rstrip l)) with h3 | h3
    · exfalso
      rw [pfx_mono (rstrip_pref_self l) h3] at hns
      simp at hns
    simp [h1, h2, h3]

theorem filterMap_self {α : Type} {f : α → Option α} :
    ∀ {l : List α}, (∀ x ∈ l, f x = some x) → l.filterMap f = l := by
  intro l
  induction l with
  | nil => intro _; rfl
  | cons a t ih =>
      intro h
      rw [List.filterMap_cons, h a (by simp)]
      rw [ih (fun x hx => h x (by simp [hx]))]

theorem mem_cleanHunk_self {b : List Line} {x : Line} (hx : x ∈ cleanHunk b) :
    cleanLine x = some x := by
  obtain ⟨y, _, hcy⟩ := List.mem_filterMap.1 hx
  exact cleanLine_self hcy

theorem cleanHunk_idem (b : List Line) : cleanHunk (cleanHunk b) = cleanHunk b :=
  filterMap_self (fun _ hx => mem_cleanHunk_self hx)

theorem cleanHunk_notStop {b : List Line} (hb : ∀ y ∈ b, notStop y = true) :
    ∀ x ∈ cleanHunk b, notStop x = true := by
  intro x hx
  obtain ⟨y, hy, hcy⟩ := List.mem_filterMap.1 hx
  exact cleanLine_notStop (hb y hy) hcy

/-! ## Lemmas: decimal digits and header parsing -/

theorem digitChar_isDigit (n : Nat) : (digitChar n).isDigit = true := by
  rcases n with _|_|_|_|_|_|_|_|_|n <;> rfl

theorem charVal_digitChar {n : Nat} (h : n < 10) : charVal (digitChar n) = n := by
  interval_cases n <;> decide

theorem valOf_append_digit (ds : List Char) (c : Char) :
    valOfDigits (ds ++ [c]) = 10 * valOfDigits ds + charVal c := by
  simp [valOfDigits, List.foldl_append]

theorem toDecimalAux_spec :
    ∀ (fuel n : Nat), n < fuel →
      toDecimalAux fuel n ≠ []
        ∧ (∀ c ∈ toDecimalAux fuel n, c.isDigit = true)
        ∧ valOfDigits (toDecimalAux fuel n) = n := by
  intro fuel
  induction fuel with
  | zero => intro n h; omega
  | succ f ih =>
      intro n h
      by_cases h10 : n < 10
      · rw [toDecimalAux, if_pos h10]
        refine ⟨by simp, ?_, ?_⟩
        · intro c hc
          simp at hc
          subst hc
          exact digitChar_isDigit n
        · simp [valOfDigits, charVal_digitChar h10]
      · rw [toDecimalAux, if_neg h10]
        have hdiv : n / 10 < f := by
          have h1 : n / 10 < n := Nat.div_lt_self (by omega) (by omega)
          omega
        obtain ⟨hne, hdig, hval⟩ := ih (n / 10) hdiv
        refine ⟨by simp, ?_, ?_⟩
        · intro c hc
          rcases List.mem_append.1 hc with hc | hc
          · exact hdig c hc
          · simp at hc
            subst hc
            exact digitChar_isDigit _
        · rw [valOf_append_digit, hval, charVal_digitChar (Nat.mod_lt _ (by omega))]
          exact Nat.div_add_mod n 10

theorem toDecimal_ne_nil (n : Nat) : toDecimal n ≠ [] :=
  (toDecimalAux_spec (n + 1) n (Nat.lt_succ_self n)).1

theorem toDecimal_digits (n : Nat) : ∀ c ∈ toDecimal n, c.isDigit = true :=
  (toDecimalAux_spec (n + 1) n (Nat.lt_succ_self n)).2.1

theorem valOf_toDecimal (n : Nat) : valOfDigits (toDecimal n) = n :=
  (toDecimalAux_spec (n + 1) n (Nat.lt_succ_self n)).2.2

theorem parseDigits_append {ds rest : List Char} (hne : ds ≠ [])
    (hds : ∀ c ∈ ds, Char.isDigit c = true)
    (hrest : rest.takeWhile Char.isDigit = []) :
    parseDigits (ds ++ rest) = some (valOfDigits ds, rest) := by
  have hdrop : rest.dropWhile Char.isDigit = rest := by
    have := List.takeWhile_append_dropWhile Char.isDigit rest
    rwa [hrest, List.nil_append] at this
  unfold parseDigits
  rw [List.takeWhile_append_of_pos hds, hrest, List.append_nil,
    List.dropWhile_append_of_pos hds, hdrop, if_neg hne]

theorem parseDigits_inv {s r : List Char} {v : Nat} (h : parseDigits s = some (v, r)) :
    s.takeWhile Char.isDigit ≠ []
      ∧ v = valOfDigits (s.takeWhile Char.isDigit)
      ∧ r = s.dropWhile Char.isDigit := by
  unfold parseDigits at h
  by_cases hds : s.takeWhile Char.isDigit = []
  · rw [if_pos hds] at h
    cases h
  · rw [if_neg hds] at h
    have := Option.some_inj.1 h
    exact ⟨hds, congrArg Prod.fst this.symm, congrArg Prod.snd this.symm⟩

theorem isPrefixOf_append_self (p rest : List Char) : p.isPrefixOf (p ++ rest) = true := by
  rw [List.isPrefixOf_iff_prefix]
  exact List.prefix_append p rest

theorem takeWhile_digit_comma (X : List Char) :
    (',' :: X).takeWhile Char.isDigit = [] :=
  List.takeWhile_cons_of_neg (by decide)

theorem takeWhile_digit_space (X : List Char) :
    (' ' :: X).takeWhile Char.isDigit = [] :=
  List.takeWhile_cons_of_neg (by decide)

theorem skipCountPart_comma (X : List Char) :
    skipCountPart (',' :: X)
      = if X.takeWhile Char.isDigit = [] then ',' :: X else X.dropWhile Char.isDigit := rfl

/-- `skipCountPart` after a digit run followed by a space-headed tail. -/
theorem skipCountPart_digits {B rest : List Char} (hne : B ≠ [])
    (hB : ∀ c ∈ B, Char.isDigit c = true)
    (hrest : rest.takeWhile Char.isDigit = []) :
    skipCountPart (',' :: (B ++ rest)) = rest := by
  rw [skipCountPart_comma, List.takeWhile_append_of_pos hB, hrest, List.append_nil,
    if_neg hne, List.dropWhile_append_of_pos hB]
  have := List.takeWhile_append_dropWhile Char.isDigit rest
  rwa [hrest, List.nil_append] at this

/-- The right-associated spelling of `mkHeader`. -/
theorem mkHeader_assoc (a b c d : Nat) :
    mkHeader a b c d
      = "@@ -".data ++ (toDecimal a ++ (',' :: (toDecimal b ++ (" +".data
          ++ (toDecimal c ++ (',' :: (toDecimal d ++ " @@".data))))))) := by
  simp [mkHeader, List.append_assoc]

theorem dropExact_inv {p : String} {s r : Line} (h : dropExact p s = some r) :
    p.data.isPrefixOf s = true ∧ r = s.drop p.data.length := by
  unfold dropExact at h
  by_cases hp : p.data.isPrefixOf s = true
  · rw [if_pos hp] at h
    exact ⟨hp, (Option.some_inj.1 h).symm⟩
  · rw [if_neg hp] at h
    cases h

theorem dropExact_append (p : String) (rest : Line) :
    dropExact p (p.data ++ rest) = some rest := by
  unfold dropExact
  rw [if_pos (isPrefixOf_append_self _ _), List.drop_left]

/-- A successful exact-prefix drop exhibits the input as an append. -/
theorem dropExact_decompose {p : String} {s r : Line} (h : dropExact p s = some r) :
    s = p.data ++ r := by
  obtain ⟨hp, hr⟩ := dropExact_inv h
  rw [List.isPrefixOf_iff_prefix] at hp
  obtain ⟨t, ht⟩ := hp
  subst hr
  rw [← ht, List.drop_left]

theorem parseHeader_mkHeader (a b c d : Nat) :
    parseHeader (mkHeader a b c d) = some (a, c) := by
  have e1 : dropExact "@@ -" (mkHeader a b c d)
      = some (toDecimal a ++ (',' :: (toDecimal b ++ (" +".data ++ (toDecimal c
          ++ (',' :: (toDecimal d ++ " @@".data))))))) := by
    rw [mkHeader_assoc]
    exact dropExact_append _ _
  have e2 : parseDigits (toDecimal a ++ (',' :: (toDecimal b ++ (" +".data ++ (toDecimal c
      ++ (',' :: (toDecimal d ++ " @@".data)))))))
      = some (a, ',' :: (toDecimal b ++ (" +".data ++ (toDecimal c
          ++ (',' :: (toDecimal d ++ " @@".data)))))) := by
    rw [parseDigits_append (toDecimal_ne_nil a) (toDecimal_digits a)
      (takeWhile_digit_comma _), valOf_toDecimal]
  have e3 : skipCountPart (',' :: (toDecimal b ++ (" +".data ++ (toDecimal c
      ++ (',' :: (toDecimal d ++ " @@".data))))))
      = " +".data ++ (toDecimal c ++ (',' :: (toDecimal d ++ " @@".data))) :=
    skipCountPart_digits (toDecimal_ne_nil b) (toDecimal_digits b)
      (by rw [show (" +".data ++ (toDecimal c ++ (',' :: (toDecimal d ++ " @@".data)))
            : List Char) = ' ' :: '+' :: (toDecimal c ++ (',' :: (toDecimal d
            ++ " @@".data))) from rfl]
          exact takeWhile_digit_space _)
  have e4 : dropExact " +" (" +".data ++ (toDecimal c ++ (',' :: (toDecimal d
      ++ " @@".data))))
      = some (toDecimal c ++ (',' :: (toDecimal d ++ " @@".data))) :=
    dropExact_append _ _
  have e5 : parseDigits (toDecimal c ++ (',' :: (toDecimal d ++ " @@".data)))
      = some (c, ',' :: (toDecimal d ++ " @@".data)) := by
    rw [parseDigits_append (toDecimal_ne_nil c) (toDecimal_digits c)
      (takeWhile_digit_comma _), valOf_toDecimal]
  have e6 : skipCountPart (',' :: (toDecimal d ++ " @@".data)) = " @@".data :=
    skipCountPart_digits (toDecimal_ne_nil d) (toDecimal_digits d)
      (show (" @@".data : List Char).takeWhile Char.isDigit = [] from rfl)
  have e7 : (" @@".data.isPrefixOf (" @@".data : List Char)) = true := by
    rw [List.isPrefixOf_iff_prefix]
  simp only [parseHeader, e1, e2, e3, e4, e5, e6, e7]
  all_goals simp

theorem parseHeader4_mkHeader (a b c d : Nat) :
    parseHeader4 (mkHeader a b c d) = some (a, b, c, d) := by
  have e1 : dropExact "@@ -" (mkHeader a b c d)
      = some (toDecimal a ++ (',' :: (toDecimal b ++ (" +".data ++ (toDecimal c
          ++ (',' :: (toDecimal d ++ " @@".data))))))) := by
    rw [mkHeader_assoc]
    exact dropExact_append _ _
  have e2 : parseDigits (toDecimal a ++ (',' :: (toDecimal b ++ (" +".data ++ (toDecimal c
      ++ (',' :: (toDecimal d ++ " @@".data)))))))
      = some (a, ',' :: (toDecimal b ++ (" +".data ++ (toDecimal c
          ++ (',' :: (toDecimal d ++ " @@".data)))))) := by
    rw [parseDigits_append (toDecimal_ne_nil a) (toDecimal_digits a)
      (takeWhile_digit_comma _), valOf_toDecimal]
  have e3 : dropExact "," (',' :: (toDecimal b ++ (" +".data ++ (toDecimal c
      ++ (',' :: (toDecimal d ++ " @@".data))))))
      = some (toDecimal b ++ (" +".data ++ (toDecimal c
          ++ (',' :: (toDecimal d ++ " @@".data))))) := by
    rw [show (',' :: (toDecimal b ++ (" +".data ++ (toDecimal c
        ++ (',' :: (toDecimal d ++ " @@".data))))) : List Char)
      = ",".data ++ (toDecimal b ++ (" +".data ++ (toDecimal c
        ++ (',' :: (toDecimal d ++ " @@".data))))) from rfl]
    exact dropExact_append _ _
  have e4 : parseDigits (toDecimal b ++ (" +".data ++ (toDecimal c
      ++ (',' :: (toDecimal d ++ " @@".data)))))
      = some (b, " +".data ++ (toDecimal c ++ (',' :: (toDecimal d ++ " @@".data)))) := by
    rw [parseDigits_append (toDecimal_ne_nil b) (toDecimal_digits b)
      (by rw [show (" +".data ++ (toDecimal c ++ (',' :: (toDecimal d ++ " @@".data)))
            : List Char) = ' ' :: '+' :: (toDecimal c ++ (',' :: (toDecimal d
            ++ " @@".data))) from rfl]
          exact takeWhile_digit_space _), valOf_toDecimal]
  have e5 : dropExact " +" (" +".data ++ (toDecimal c ++ (',' :: (toDecimal d
      ++ " @@".data))))
      = some (toDecimal c ++ (',' :: (toDecimal d ++ " @@".data))) :=
    dropExact_append _ _
  have e6 : parseDigits (toDecimal c ++ (',' :: (toDecimal d ++ " @@".data)))
      = some (c, ',' :: (toDecimal d ++ " @@".data)) := by
    rw [parseDigits_append (toDecimal_ne_nil c) (toDecimal_digits c)
      (takeWhile_digit_comma _), valOf_toDecimal]
  have e7 : dropExact "," (',' :: (toDecimal d ++ " @@".data))
      = some (toDecimal d ++ " @@".data) := by
    rw [show (',' :: (toDecimal d ++ " @@".data) : List Char)
      = ",".data ++ (toDecimal d ++ " @@".data) from rfl]
    exact dropExact_append _ _
  have e8 : parseDigits (toDecimal d ++ " @@".data) = some (d, " @@".data) := by
    rw [parseDigits_append (toDecimal_ne_nil d) (toDecimal_digits d)
      (show (" @@".data : List Char).takeWhile Char.isDigit = [] from rfl), valOf_toDecimal]
  simp only [parseHeader4, e1, e2, e3, e4, e5, e6, e7, e8]
  all_goals simp

theorem parseHeader4_imp_parseHeader {l : Line} {a b c d : Nat}
    (h : parseHeader4 l = some (a, b, c, d)) : parseHeader l = some (a, c) := by
  unfold parseHeader4 at h
  cases hd1 : dropExact "@@ -" l with
  | none => rw [hd1] at h; exact Option.noConfusion h
  | some s1 =>
  simp only [hd1] at h
  cases hp1 : parseDigits s1 with
  | none =>
      simp only [hp1] at h
      exact Option.noConfusion h
  | some av =>
  obtain ⟨a1, s2⟩ := av
  simp only [hp1] at h
  cases hd2 : dropExact "," s2 with
  | none =>
      simp only [hd2] at h
      exact Option.noConfusion h
  | some s3 =>
  simp only [hd2] at h
  cases hp2 : parseDigits s3 with
  | none =>
      simp only [hp2] at h
      exact Option.noConfusion h
  | some bv =>
  obtain ⟨b1, s4⟩ := bv
  simp only [hp2] at h
  cases hd3 : dropExact " +" s4 with
  | none =>
      simp only [hd3] at h
      exact Option.noConfusion h
  | some s5 =>
  simp only [hd3] at h
  cases hp3 : parseDigits s5 with
  | none =>
      simp only [hp3] at h
      exact Option.noConfusion h
  | some cv =>
  obtain ⟨c1, s6⟩ := cv
  simp only [hp3] at h
  cases hd4 : dropExact "," s6 with
  | none =>
      simp only [hd4] at h
      exact Option.noConfusion h
  | some s7 =>
  simp only [hd4] at h
  cases hp4 : parseDigits s7 with
  | none =>
      simp only [hp4] at h
      exact Option.noConfusion h
  | some dv =>
  obtain ⟨d1, s8⟩ := dv
  simp only [hp4] at h
  by_cases hend : s8 = " @@".data
  · rw [if_pos hend] at h
    simp only [Option.some.injEq, Prod.mk.injEq] at h
    obtain ⟨ha, _, hc, _⟩ := h
    subst ha
    subst hc
    have hskip1 : skipCountPart s2 = s4 := by
      obtain ⟨hne3, _, hdrop3⟩ := parseDigits_inv hp2
      rw [dropExact_decompose hd2,
        show ((",".data ++ s3 : List Char)) = ',' :: s3 from rfl,
        skipCountPart_comma, if_neg hne3, ← hdrop3]
    have hskip2 : skipCountPart s6 = s8 := by
      obtain ⟨hne7, _, hdrop7⟩ := parseDigits_inv hp4
      rw [dropExact_decompose hd4,
        show ((",".data ++ s7 : List Char)) = ',' :: s7 from rfl,
        skipCountPart_comma, if_neg hne7, ← hdrop7]
    have e4 : dropExact " +" (skipCountPart s2) = some s5 := by
      rw [hskip1, dropExact_decompose hd3]
      exact dropExact_append _ _
    have hpr : (" @@".data.isPrefixOf (skipCountPart s6)) = true := by
      rw [hskip2, hend, List.isPrefixOf_iff_prefix]
    simp [parseHeader, hd1, hp1, e4, hp3, hpr]
  · rw [if_neg hend] at h
    exact Option.noConfusion h

/-! ## Lemmas: the normalizer -/

theorem normLines_nil : normLines [] = [] := by
  simp [normLines]

theorem normLines_cons_header {l : Line} (h : pfx "@@" l = true) (ls : List Line) :
    normLines (l :: ls)
      = recomputeHeader l (cleanHunk (ls.takeWhile notStop))
          :: (cleanHunk (ls.takeWhile notStop) ++ normLines (ls.dropWhile notStop)) := by
  rw [normLines]
  simp [h]

theorem normLines_cons_other {l : Line} (h : pfx "@@" l = false) (ls : List Line) :
    normLines (l :: ls) = l :: normLines ls := by
  rw [normLines]
  simp [h]

theorem hunkPairs_nil : hunkPairs [] = [] := by
  simp [hunkPairs]

theorem hunkPairs_cons_header {l : Line} (h : pfx "@@" l = true) (ls : List Line) :
    hunkPairs (l :: ls)
      = (l, ls.takeWhile notStop) :: hunkPairs (ls.dropWhile notStop) := by
  rw [hunkPairs]
  simp [h]

theorem hunkPairs_cons_other {l : Line} (h : pfx "@@" l = false) (ls : List Line) :
    hunkPairs (l :: ls) = hunkPairs ls := by
  rw [hunkPairs]
  simp [h]

theorem pfx_mkHeader (a b c d : Nat) : pfx "@@" (mkHeader a b c d) = true := by
  rw [mkHeader_assoc, pfx, List.isPrefixOf_iff_prefix]
  exact List.IsPrefix.trans
    (List.isPrefixOf_iff_prefix.1
      (show ("@@".data : List Char).isPrefixOf "@@ -".data = true from rfl))
    (List.prefix_append _ _)

theorem recomputeHeader_pfx {l : Line} (h : pfx "@@" l = true) (cleaned : List Line) :
    pfx "@@" (recomputeHeader l cleaned) = true := by
  unfold recomputeHeader
  cases hp : parseHeader l with
  | none => exact h
  | some v =>
      obtain ⟨os, ns⟩ := v
      exact pfx_mkHeader _ _ _ _

theorem isStop_recomputeHeader {l : Line} (h : pfx "@@" l = true) (cleaned : List Line) :
    isStop (recomputeHeader l cleaned) = true := by
  unfold isStop
  rw [recomputeHeader_pfx h]
  simp

theorem normLines_head_stop {r : Line} {rs : List Line} (hr : isStop r = true) :
    ∃ h t, normLines (r :: rs) = h :: t ∧ isStop h = true := by
  by_cases hat : pfx "@@" r = true
  · rw [normLines_cons_header hat]
    exact ⟨_, _, rfl, isStop_recomputeHeader hat _⟩
  · rw [normLines_cons_other (by simpa using hat)]
    exact ⟨r, _, rfl, hr⟩

theorem dropWhile_shape {α : Type} (p : α → Bool) (ls : List α) :
    ls.dropWhile p = [] ∨ ∃ r rs, ls.dropWhile p = r :: rs ∧ p r = false := by
  cases hd : ls.dropWhile p with
  | nil => exact Or.inl rfl
  | cons r rs => exact Or.inr ⟨r, rs, rfl, dropWhile_head_false p ls r rs hd⟩

/-- The stop-line shape of a `dropWhile notStop` remainder. -/
theorem rest_shape (ls : List Line) :
    ls.dropWhile notStop = []
      ∨ ∃ r rs, ls.dropWhile notStop = r :: rs ∧ isStop r = true := by
  rcases dropWhile_shape notStop ls with h | ⟨r, rs, heq, hns⟩
  · exact Or.inl h
  · refine Or.inr ⟨r, rs, heq, ?_⟩
    unfold notStop at hns
    simpa using hns

/-- Normalized output of a remainder starting at a stop line is inert for
the second pass's body collection. -/
theorem normRest_inert {rest : List Line}
    (hrest : rest = [] ∨ ∃ r rs, rest = r :: rs ∧ isStop r = true) :
    (normLines rest).takeWhile notStop = []
      ∧ (normLines rest).dropWhile notStop = normLines rest := by
  rcases hrest with h | ⟨r, rs, heq, hstop⟩
  · subst h
    simp [normLines_nil]
  · subst heq
    obtain ⟨h, t, heq2, hstop2⟩ := normLines_head_stop hstop
    rw [heq2]
    have hns : notStop h = false := by
      unfold notStop
      simp [hstop2]
    exact ⟨List.takeWhile_cons_of_neg (by simp [hns]),
      List.dropWhile_cons_of_neg (by simp [hns])⟩

/-- Recomputing a recomputed header with the same cleaned body is stable. -/
theorem recomputeHeader_stable (l : Line) (cleaned : List Line) :
    recomputeHeader (recomputeHeader l cleaned) cleaned = recomputeHeader l cleaned := by
  cases hp : parseHeader l with
  | none => simp only [recomputeHeader, hp]
  | some v =>
      obtain ⟨os, ns⟩ := v
      simp only [recomputeHeader, hp, parseHeader_mkHeader]
      by_cases h1 : removedCount cleaned + contextCount cleaned = 0 <;>
        by_cases h2 : addedCount cleaned + contextCount cleaned = 0 <;>
        simp [h1, h2]

/-- Core idempotence of the line-level normalizer. -/
theorem normLines_idem (ls : List Line) : normLines (normLines ls) = normLines ls := by
  have H : ∀ n (ls : List Line), ls.length ≤ n →
      normLines (normLines ls) = normLines ls := by
    intro n
    induction n with
    | zero =>
        intro ls h
        have : ls = [] := List.length_eq_zero.1 (Nat.le_zero.1 h)
        subst this
        simp [normLines_nil]
    | succ n ih =>
        intro ls hlen
        cases ls with
        | nil => simp [normLines_nil]
        | cons l ls =>
            by_cases hat : pfx "@@" l = true
            · rw [normLines_cons_header hat]
              have hclean_ns : ∀ x ∈ cleanHunk (ls.takeWhile notStop), notStop x = true :=
                cleanHunk_notStop (fun y hy => List.mem_takeWhile_imp hy)
              obtain ⟨htw, hdw⟩ := normRest_inert (rest_shape ls)
              rw [normLines_cons_header (recomputeHeader_pfx hat _),
                List.takeWhile_append_of_pos hclean_ns, htw, List.append_nil,
                List.dropWhile_append_of_pos hclean_ns, hdw, cleanHunk_idem,
                ih (ls.dropWhile notStop)
                  (le_trans (List.dropWhile_suffix notStop).length_le
                    (by simp at hlen; omega)),
                recomputeHeader_stable]
            · have hat' : pfx "@@" l = false := by simpa using hat
              rw [normLines_cons_other hat', normLines_cons_other hat',
                ih ls (by simp at hlen; omega)]
  exact H ls.length ls le_rfl

theorem splitNl_cons (c : Char) (t : List Char) :
    splitNl (c :: t)
      = match splitNl t with
        | [] => [[c]]
        | h :: hs => if c = '\n' then [] :: h :: hs else (c :: h) :: hs := rfl

theorem splitNl_ne_nil (d : List Char) : splitNl d ≠ [] := by
  cases d with
  | nil => simp [splitNl]
  | cons c t =>
      unfold splitNl
      cases splitNl t with
      | nil => simp
      | cons h hs => by_cases hc : c = '\n' <;> simp [hc]

theorem splitNl_no_nl : ∀ (d : List Char), ∀ l ∈ splitNl d, '\n' ∉ l := by
  intro d
  induction d with
  | nil =>
      intro l hl
      simp [splitNl] at hl
      simp [hl]
  | cons c t ih =>
      intro l hl
      cases hs : splitNl t with
      | nil => exact absurd hs (splitNl_ne_nil t)
      | cons h hs' =>
          unfold splitNl at hl
          rw [hs] at hl
          dsimp only at hl
          by_cases hc : c = '\n'
          · rw [if_pos hc] at hl
            rcases List.mem_cons.1 hl with h1 | h1
            · simp [h1]
            · exact ih l (by rw [hs]; exact h1)
          · rw [if_neg hc] at hl
            rcases List.mem_cons.1 hl with h1 | h1
            · subst h1
              intro hmem
              rcases List.mem_cons.1 hmem with h2 | h2
              · exact hc h2.symm
              · exact ih h (by rw [hs]; exact List.mem_cons_self h hs') h2
            · exact ih l (by rw [hs]; exact List.mem_cons_of_mem h h1)

theorem splitNl_single {a : List Char} (h : '\n' ∉ a) : splitNl a = [a] := by
  induction a with
  | nil => rfl
  | cons c t ih =>
      have hc : c ≠ '\n' := fun hh => h (by simp [hh])
      have ht := ih (fun hh => h (by simp [hh]))
      unfold splitNl
      rw [ht]
      simp [hc]

theorem splitNl_append {a : List Char} (m : List Char) (h : '\n' ∉ a) :
    splitNl (a ++ '\n' :: m) = a :: splitNl m := by
  induction a with
  | nil =>
      rw [List.nil_append]
      cases hs : splitNl m with
      | nil => exact absurd hs (splitNl_ne_nil m)
      | cons x xs =>
          rw [splitNl_cons, hs]
          simp
  | cons c t ih =>
      have hc : c ≠ '\n' := fun hh => h (by simp [hh])
      have ht := ih (fun hh => h (by simp [hh]))
      rw [List.cons_append, splitNl_cons, ht]
      simp [hc]

theorem joinNl_cons₂ (a b : Line) (rest : List Line) :
    joinNl (a :: b :: rest) = a ++ '\n' :: joinNl (b :: rest) := by
  simp [joinNl, List.intercalate, List.intersperse]

theorem splitNl_joinNl :
    ∀ {ls : List Line}, ls ≠ [] → (∀ l ∈ ls, '\n' ∉ l) → splitNl (joinNl ls) = ls := by
  intro ls
  induction ls with
  | nil => intro h; exact absurd rfl h
  | cons a rest ih =>
      intro _ hno
      cases rest with
      | nil =>
          have : joinNl [a] = a := by simp [joinNl, List.intercalate]
          rw [this, splitNl_single (hno a (by simp))]
      | cons b rest' =>
          rw [joinNl_cons₂, splitNl_append _ (hno a (by simp)),
            ih (by simp) (fun l hl => hno l (List.mem_cons_of_mem a hl))]

theorem normLines_ne_nil {ls : List Line} (h : ls ≠ []) : normLines ls ≠ [] := by
  cases ls with
  | nil => exact absurd rfl h
  | cons l t =>
      by_cases hat : pfx "@@" l = true
      · rw [normLines_cons_header hat]
        simp
      · rw [normLines_cons_other (by simpa using hat)]
        simp

theorem mkHeader_no_nl (a b c d : Nat) : '\n' ∉ mkHeader a b c d := by
  have hd : ∀ (x : Nat), '\n' ∈ toDecimal x → False := fun x hx =>
    absurd (toDecimal_digits x _ hx) (by decide)
  intro h
  rw [mkHeader_assoc] at h
  simp only [List.mem_append, List.mem_cons] at h
  rcases h with h | h | h | h | h | h | h | h
  · simp at h
  · exact hd _ h
  · simp at h
  · exact hd _ h
  · simp at h
  · exact hd _ h
  · simp at h
  · rcases h with h | h
    · exact hd _ h
    · simp at h

theorem recomputeHeader_no_nl {l : Line} (hl : '\n' ∉ l) (cleaned : List Line) :
    '\n' ∉ recomputeHeader l cleaned := by
  unfold recomputeHeader
  cases hp : parseHeader l with
  | none => exact hl
  | some v =>
      obtain ⟨os, ns⟩ := v
      exact mkHeader_no_nl _ _ _ _

theorem normLines_no_nl :
    ∀ ls : List Line, (∀ l ∈ ls, '\n' ∉ l) → ∀ x ∈ normLines ls, '\n' ∉ x := by
  have H : ∀ n (ls : List Line), ls.length ≤ n → (∀ l ∈ ls, '\n' ∉ l) →
      ∀ x ∈ normLines ls, '\n' ∉ x := by
    intro n
    induction n with
    | zero =>
        intro ls h hno x hx
        have : ls = [] := List.length_eq_zero.1 (Nat.le_zero.1 h)
        subst this
        rw [normLines_nil] at hx
        simp at hx
    | succ n ih =>
        intro ls hlen hno x hx
        cases ls with
        | nil =>
            rw [normLines_nil] at hx
            simp at hx
        | cons l t =>
            by_cases hat : pfx "@@" l = true
            · rw [normLines_cons_header hat] at hx
              rcases List.mem_cons.1 hx with hx | hx
              · subst hx
                exact recomputeHeader_no_nl (hno l (by simp)) _
              · rcases List.mem_append.1 hx with hx | hx
                · obtain ⟨y, hy, hcy⟩ := List.mem_filterMap.1 hx
                  have hyin : y ∈ t := (List.takeWhile_sublist notStop).subset hy
                  exact fun hmem => hno y (List.mem_cons_of_mem l hyin)
                    ((cleanLine_sublist hcy).subset hmem)
                · exact ih (t.dropWhile notStop)
                    (le_trans (List.dropWhile_suffix notStop).length_le
                      (by simp at hlen; omega))
                    (fun l2 hl2 => hno l2 (List.mem_cons_of_mem l
                      ((List.dropWhile_suffix notStop).sublist.subset hl2)))
                    x hx
            · rw [normLines_cons_other (by simpa using hat)] at hx
              rcases List.mem_cons.1 hx with hx | hx
              · subst hx
                exact hno _ (by simp)
              · exact ih t (by simp at hlen; omega)
                  (fun l2 hl2 => hno l2 (List.mem_cons_of_mem l hl2)) x hx
  exact fun ls => H ls.length ls le_rfl

/-- C6: applying `_normalize_hunk_headers` to its own output returns that
output byte-for-byte: the normalized form is a fixed point of the
normalizer. -/
theorem C6_normalization_idempotent (diff : String) :
    normalizeHunkHeaders (normalizeHunkHeaders diff) = normalizeHunkHeaders diff := by
  unfold normalizeHunkHeaders
  have hdata : ∀ X : List Char, (String.mk X).data = X := fun _ => rfl
  rw [hdata,
    splitNl_joinNl (normLines_ne_nil (splitNl_ne_nil _))
      (normLines_no_nl _ (splitNl_no_nl _)),
    normLines_idem]

/-- Core of C5: every header/body pair read back from the normalizer's
line-level output whose header parses in the emitted exact format carries
exactly the cleaned body's counts, with the zero clamp. -/
theorem hunkPairs_normLines_spec :
    ∀ (ls : List Line) (h b), (h, b) ∈ hunkPairs (normLines ls) →
      ∀ os oc ns nc, parseHeader4 h = some (os, oc, ns, nc) →
        (removedCount b + contextCount b = 0 → os = 1 ∧ oc = 1)
        ∧ (removedCount b + contextCount b ≠ 0 →
            oc = removedCount b + contextCount b)
        ∧ (addedCount b + contextCount b = 0 → ns = 1 ∧ nc = 1)
        ∧ (addedCount b + contextCount b ≠ 0 →
            nc = addedCount b + contextCount b) := by
  have H : ∀ n (ls : List Line), ls.length ≤ n →
      ∀ h b, (h, b) ∈ hunkPairs (normLines ls) →
      ∀ os oc ns nc, parseHeader4 h = some (os, oc, ns, nc) →
        (removedCount b + contextCount b = 0 → os = 1 ∧ oc = 1)
        ∧ (removedCount b + contextCount b ≠ 0 →
            oc = removedCount b + contextCount b)
        ∧ (addedCount b + contextCount b = 0 → ns = 1 ∧ nc = 1)
        ∧ (addedCount b + contextCount b ≠ 0 →
            nc = addedCount b + contextCount b) := by
    intro n
    induction n with
    | zero =>
        intro ls hl h b hmem
        have : ls = [] := List.length_eq_zero.1 (Nat.le_zero.1 hl)
        subst this
        rw [normLines_nil, hunkPairs_nil] at hmem
        exact absurd hmem (List.not_mem_nil _)
    | succ n ih =>
        intro ls hlen h b hmem os oc ns nc hparse
        cases ls with
        | nil =>
            rw [normLines_nil, hunkPairs_nil] at hmem
            exact absurd hmem (List.not_mem_nil _)
        | cons l t =>
            by_cases hat : pfx "@@" l = true
            · rw [normLines_cons_header hat] at hmem
              have hclean_ns : ∀ x ∈ cleanHunk (t.takeWhile notStop), notStop x = true :=
                cleanHunk_notStop (fun y hy => List.mem_takeWhile_imp hy)
              obtain ⟨htw, hdw⟩ := normRest_inert (rest_shape t)
              rw [hunkPairs_cons_header (recomputeHeader_pfx hat _),
                List.takeWhile_append_of_pos hclean_ns, htw, List.append_nil,
                List.dropWhile_append_of_pos hclean_ns, hdw] at hmem
              rcases List.mem_cons.1 hmem with hhd | htl
              · have hh : h = recomputeHeader l (cleanHunk (t.takeWhile notStop)) :=
                  congrArg Prod.fst hhd
                have hb : b = cleanHunk (t.takeWhile notStop) := congrArg Prod.snd hhd
                cases hpl : parseHeader l with
                | none =>
                    rw [hh] at hparse
                    unfold recomputeHeader at hparse
                    rw [hpl] at hparse
                    exact absurd (parseHeader4_imp_parseHeader hparse)
                      (by rw [hpl]; exact fun hcon => Option.noConfusion hcon)
                | some v =>
                    obtain ⟨os0, ns0⟩ := v
                    rw [hh] at hparse
                    unfold recomputeHeader at hparse
                    simp only [hpl] at hparse
                    rw [← hb] at hparse
                    simp only [parseHeader4_mkHeader, Option.some.injEq,
                      Prod.mk.injEq] at hparse
                    obtain ⟨ho, hoc, hn, hnc⟩ := hparse
                    refine ⟨fun hz => ⟨?_, ?_⟩, fun hnz => ?_, fun hz => ⟨?_, ?_⟩,
                      fun hnz => ?_⟩
                    · rw [← ho]
                      simp [hz]
                    · rw [← hoc]
                      simp [hz]
                    · rw [← hoc]
                      simp [hnz]
                    · rw [← hn]
                      simp [hz]
                    · rw [← hnc]
                      simp [hz]
                    · rw [← hnc]
                      simp [hnz]
              · exact ih (t.dropWhile notStop)
                  (le_trans (List.dropWhile_suffix notStop).length_le
                    (by simp at hlen; omega)) h b htl os oc ns nc hparse
            · rw [normLines_cons_other (by simpa using hat),
                hunkPairs_cons_other (by simpa using hat)] at hmem
              exact ih t (by simp at hlen; omega) h b hmem os oc ns nc hparse
  exact fun ls => H ls.length ls le_rfl

/-- C5: in the output of `_normalize_hunk_headers`, every hunk header (in
the emitted `@@ -a,b +c,d @@` format) carries an old count equal to the
cleaned body's context-plus-removed line count and a new count equal to
its context-plus-added count, a zero count being clamped to start 1,
count 1. -/
theorem C5_normalized_headers_match_counts :
    ∀ (diff : String) (h b),
      (h, b) ∈ hunkPairs (splitNl (normalizeHunkHeaders diff).data) →
      ∀ os oc ns nc, parseHeader4 h = some (os, oc, ns, nc) →
        (removedCount b + contextCount b = 0 → os = 1 ∧ oc = 1)
        ∧ (removedCount b + contextCount b ≠ 0 →
            oc = removedCount b + contextCount b)
        ∧ (addedCount b + contextCount b = 0 → ns = 1 ∧ nc = 1)
        ∧ (addedCount b + contextCount b ≠ 0 →
            nc = addedCount b + contextCount b) := by
  intro diff h b hmem
  have hdata : ∀ X : List Char, (String.mk X).data = X := fun _ => rfl
  rw [normalizeHunkHeaders, hdata,
    splitNl_joinNl (normLines_ne_nil (splitNl_ne_nil _))
      (normLines_no_nl _ (splitNl_no_nl _))] at hmem
  exact hunkPairs_normLines_spec _ h b hmem

/-- Witness for C5 on a concrete diff whose hunk counts were wrong (9,9)
and get recomputed to (2,2). -/
theorem C5_normalized_headers_match_counts_witness :
    parseHeader4 ("@@ -3,2 +4,2 @@".data) = some (3, 2, 4, 2)
    ∧ (2 : Nat) = removedCount [" ctx".data, "-old".data, "+new".data]
        + contextCount [" ctx".data, "-old".data, "+new".data]
    ∧ (2 : Nat) = addedCount [" ctx".data, "-old".data, "+new".data]
        + contextCount [" ctx".data, "-old".data, "+new".data] := by
  have hmem : (("@@ -3,2 +4,2 @@".data : Line), [" ctx".data, "-old".data, "+new".data])
      ∈ hunkPairs (splitNl
          (normalizeHunkHeaders "@@ -3,9 +4,9 @@\n ctx\n-old\n+new").data) := by
    simp [normalizeHunkHeaders, splitNl, normLines, joinNl, cleanHunk, cleanLine,
      recomputeHeader, parseHeader, parseDigits, skipCountPart, mkHeader, toDecimal,
      toDecimalAux, digitChar, removedCount, addedCount, contextCount, pfx, isStop,
      notStop, rstrip, isPyWS, valOfDigits, charVal, List.takeWhile, List.dropWhile,
      hunkPairs, List.isPrefixOf, List.intercalate, dropExact]
  have hparse : parseHeader4 ("@@ -3,2 +4,2 @@".data) = some (3, 2, 4, 2) := by decide
  have h := C5_normalized_headers_match_counts "@@ -3,9 +4,9 @@\n ctx\n-old\n+new"
    ("@@ -3,2 +4,2 @@".data) [" ctx".data, "-old".data, "+new".data] hmem 3 2 4 2 hparse
  exact ⟨hparse, h.2.1 (by decide), h.2.2.2 (by decide)⟩

/-- C7 counterexample: an added line whose content is a single space is
dropped by `_clean_hunk` (the `continue` branch), not collapsed to an
empty added line, so it does not count toward the cleaned counts. -/
theorem C7_whitespace_line_dropped_counterexample :
    cleanLine ['+', ' '] = none
    ∧ cleanHunk [['+', ' ']] = []
    ∧ addedCount (cleanHunk [['+', ' ']]) = 0 := by
  decide

/-- All characters `rstrip` removes are whitespace. -/
theorem rstrip_dropped_ws (l : Line) :
    ∀ ch ∈ l.drop (rstrip l).length, isPyWS ch = true := by
  intro ch hch
  obtain ⟨t, ht⟩ := rstrip_pref_self l
  have hdrop : l.drop (rstrip l).length = t := by
    nth_rewrite 2 [← ht]
    rw [List.drop_left]
  rw [hdrop] at hch
  have hrevl : l.reverse = t.reverse ++ (rstrip l).reverse := by
    nth_rewrite 1 [← ht]
    simp
  have hrev_rstrip : (rstrip l).reverse = l.reverse.dropWhile isPyWS := by
    simp [rstrip]
  have htake : t.reverse = l.reverse.takeWhile isPyWS := by
    have h2 : l.reverse.takeWhile isPyWS ++ l.reverse.dropWhile isPyWS = l.reverse :=
      List.takeWhile_append_dropWhile _ _
    have h3 : t.reverse ++ l.reverse.dropWhile isPyWS = l.reverse := by
      rw [← hrev_rstrip, ← hrevl]
    have h4 : t.reverse ++ l.reverse.dropWhile isPyWS
        = l.reverse.takeWhile isPyWS ++ l.reverse.dropWhile isPyWS := by
      rw [h3, h2]
    exact List.append_cancel_right h4
  have hmemrev : ch ∈ t.reverse := List.mem_reverse.2 hch
  rw [htake] at hmemrev
  exact List.mem_takeWhile_imp hmemrev

/-- C7 amended: on a `+`/`-` body line (not a `+++`/`---` file header),
`_clean_hunk` strips exactly the trailing whitespace and keeps the leading
indentation, except that a line whose content is nonempty but entirely
whitespace is dropped outright (Python's `continue`), so it does not count
toward the cleaned counts; a line with already-empty content is kept. -/
theorem C7_clean_hunk_amended :
    ∀ (c : Char) (content : Line), (c = '+' ∨ c = '-') →
      (pfx "+++" (c :: content) || pfx "---" (c :: content)) = false →
      (cleanLine (c :: content)
          = if rstrip content = [] ∧ content ≠ [] then none
            else some (c :: rstrip content))
      ∧ rstrip content <+: content
      ∧ (∀ ch ∈ content.drop (rstrip content).length, isPyWS ch = true) := by
  intro c content hc h3
  exact ⟨cleanLine_eval_pm hc h3, rstrip_pref_self content, rstrip_dropped_ws content⟩

/-- Witness for the amended C7 at concrete lines. -/
theorem C7_clean_hunk_amended_witness :
    cleanLine ('+' :: "ab  ".data) = some ('+' :: "ab".data)
    ∧ cleanLine ('+' :: "   ".data) = none
    ∧ cleanLine ('+' :: ([] : Line)) = some ['+'] := by
  have h1 := (C7_clean_hunk_amended '+' "ab  ".data (Or.inl rfl) (by decide)).1
  have h2 := (C7_clean_hunk_amended '+' "   ".data (Or.inl rfl) (by decide)).1
  have h3 := (C7_clean_hunk_amended '+' ([] : Line) (Or.inl rfl) (by decide)).1
  rw [h1, h2, h3]
  refine ⟨by decide, by decide, by decide⟩

end AgenticReviewer
